import Mathlib

/- The Batteries arithmetic on `Rat` is marked `@[irreducible]`, which
blocks `decide` on concrete rational computations; restore the default
reducibility so that concrete pipeline runs evaluate. -/
set_option allowUnsafeReducibility true in
attribute [semireducible] Rat.add Rat.mul Rat.inv Rat.sub Rat.ofScientific

/-!
Verification development for the procurement/electoral data pipeline
(`secop.py`, `outsiders.py`, `final_database.py`, `process_secop1.py`,
`process_secop2.py`).

The Python code is shallowly embedded as executable Lean definitions:

* pandas missing values (`NaN` / `None`) become `Option`;
* float currency values become `ℚ` (the claims under study are exact
  algebraic statements about sums, quotients and comparisons, which the
  rational embedding reflects faithfully);
* dataframes become lists of records, `groupby` becomes filtering by a key
  together with `dedup` over the key column;
* Python string primitives (`str.lower`, `str.strip`, `str.split`,
  `str.replace`, `str.title`, `in`, `startswith`, `unicodedata.normalize
  ("NFD", ...)` followed by dropping combining marks) are modelled
  character by character.  Unicode tables are restricted to the character
  repertoire the pipeline actually touches (ASCII plus the Spanish
  accented letters and the corresponding combining marks); every other
  character is mapped to itself, which matches Python on all inputs built
  from that repertoire.
-/

/-! ## Character-level model of the Python string primitives -/

/-- Whitespace as used by `str.strip()` / `str.split()` (no-argument
forms): space, tab, newline, carriage return, vertical tab, form feed. -/
def isWs (c : Char) : Bool :=
  c = ' ' || c = '\t' || c = '\n' || c = '\x0d' || c = '\x0b' || c = '\x0c'

/-- Lowercasing table for Python `str.lower`: ASCII `A`-`Z` plus the
accented Spanish capitals. -/
def lowerPairs : List (Char × Char) :=
  [('A', 'a'), ('B', 'b'), ('C', 'c'), ('D', 'd'), ('E', 'e'), ('F', 'f'),
   ('G', 'g'), ('H', 'h'), ('I', 'i'), ('J', 'j'), ('K', 'k'), ('L', 'l'),
   ('M', 'm'), ('N', 'n'), ('O', 'o'), ('P', 'p'), ('Q', 'q'), ('R', 'r'),
   ('S', 's'), ('T', 't'), ('U', 'u'), ('V', 'v'), ('W', 'w'), ('X', 'x'),
   ('Y', 'y'), ('Z', 'z'),
   ('Á', 'á'), ('É', 'é'), ('Í', 'í'), ('Ó', 'ó'), ('Ú', 'ú'), ('Ü', 'ü'),
   ('Ñ', 'ñ')]

/-- Model of Python `str.lower` on a single character; characters outside
the table are unchanged. -/
def lowerChar (c : Char) : Char :=
  ((lowerPairs.find? (fun p => p.1 = c)).map (fun p => p.2)).getD c

/-- Model of Python `str.upper` on a single character (used only by the
`str.title` model in the SECOP I status filter). -/
def upperChar (c : Char) : Char :=
  ((lowerPairs.find? (fun p => p.2 = c)).map (fun p => p.1)).getD c

/-- Decomposition table for `unicodedata.normalize("NFD", ...)` followed
by dropping the combining marks (category `Mn`): an accented letter
decomposes into its base letter plus a combining mark and the mark is
dropped; a lone combining mark is dropped entirely. -/
def nfdPairs : List (Char × List Char) :=
  [('á', ['a']), ('é', ['e']), ('í', ['i']), ('ó', ['o']), ('ú', ['u']),
   ('ü', ['u']), ('ñ', ['n']),
   ('Á', ['A']), ('É', ['E']), ('Í', ['I']), ('Ó', ['O']), ('Ú', ['U']),
   ('Ü', ['U']), ('Ñ', ['N']),
   ('́', []), ('̃', []), ('̈', [])]

/-- Model of the per-character effect of NFD decomposition followed by
dropping combining marks; characters outside the table are kept as is.
In particular `ñ` decomposes to `n` plus a combining tilde, so this step
already turns `ñ` into `n` — the later explicit `replace("ñ", ...)`
calls in the sources never see a `ñ`. -/
def nfdStrip (c : Char) : List Char :=
  ((nfdPairs.find? (fun p => p.1 = c)).map (fun p => p.2)).getD [c]

/-- Python `str.split()` with no argument: split on whitespace runs,
dropping empty pieces.  `acc` is the (reversed) word being accumulated. -/
def wordsLoop : List Char → List Char → List (List Char)
  | acc, [] => if acc.isEmpty then [] else [acc.reverse]
  | acc, c :: rest =>
    if isWs c then
      if acc.isEmpty then wordsLoop [] rest else acc.reverse :: wordsLoop [] rest
    else wordsLoop (c :: acc) rest

/-- Python `" ".join(words)`: interleave a single space between the
pieces. -/
def joinSpace : List (List Char) → List Char
  | [] => []
  | [w] => w
  | w :: x :: ws => w ++ ' ' :: joinSpace (x :: ws)

/-- Model of the Python idiom `" ".join(t.split())` (collapse whitespace
runs to single spaces, trimming the ends). -/
def collapseWs (s : List Char) : List Char :=
  joinSpace (wordsLoop [] s)

/-- Python `str.strip()` with no argument: drop leading and trailing
whitespace. -/
def pyStrip (s : List Char) : List Char :=
  (((s.dropWhile isWs).reverse).dropWhile isWs).reverse

/-- Python `p in s` substring test, via an explicit prefix check at every
suffix (the empty pattern is contained in every string, as in Python). -/
def listStarts : List Char → List Char → Bool
  | [], _ => true
  | _ :: _, [] => false
  | a :: as, b :: bs => a = b && listStarts as bs

/-- Python `p in s` substring membership on character lists. -/
def listSub (p : List Char) : List Char → Bool
  | [] => p.isEmpty
  | b :: bs => listStarts p (b :: bs) || listSub p bs

/-- Python `s.replace(pat, rep)`: replace every non-overlapping occurrence
of `pat`, scanning left to right.  Fuelled so that the definition is
structurally recursive (fuel `s.length` always suffices because each step
consumes at least one character of `s`). -/
def pyReplaceAux (pat rep : List Char) : Nat → List Char → List Char
  | _, [] => []
  | 0, s => s
  | n + 1, c :: rest =>
    if listStarts pat (c :: rest) then
      rep ++ pyReplaceAux pat rep n ((c :: rest).drop pat.length)
    else
      c :: pyReplaceAux pat rep n rest

/-- Python `s.replace(pat, rep)` for a non-empty literal pattern. -/
def pyReplace (pat rep s : List Char) : List Char :=
  if pat.isEmpty then s else pyReplaceAux pat rep s.length s

/-! ## The five text normalizers of the pipeline -/

/-- String-level core of `normalize_txt` in `secop.py` (the branch taken
on non-null input): `strip` then `lower`, then NFD decomposition with
combining marks dropped, then `replace("ñ", "")` (dead after the NFD
step), then whitespace collapse. -/
def normalizeTxtStr (s : String) : String :=
  let t := (pyStrip s.toList).map lowerChar
  let t := t.flatMap nfdStrip
  let t := t.filter (fun c => c ≠ 'ñ')
  (collapseWs t).asString

/-- Embedding of `normalize_txt` in `secop.py`: a missing value (`NaN`)
is returned unchanged as `NaN` (`if pd.isna(txt): return np.nan`). -/
def normalize_txt (txt : Option String) : Option String :=
  match txt with
  | none => none
  | some s => some (normalizeTxtStr s)

/-- String-level core of `normalize_ciudad` in `secop.py`: as the generic
normalizer, plus an additional `replace("Ñ", "")` (also dead, since
`lower` runs before it). -/
def normalizeCiudadStr (s : String) : String :=
  let t := (pyStrip s.toList).map lowerChar
  let t := t.flatMap nfdStrip
  let t := t.filter (fun c => c ≠ 'ñ')
  let t := t.filter (fun c => c ≠ 'Ñ')
  (collapseWs t).asString

/-- Embedding of `normalize_ciudad` in `secop.py` (missing stays missing). -/
def normalize_ciudad (txt : Option String) : Option String :=
  match txt with
  | none => none
  | some s => some (normalizeCiudadStr s)

/-- String-level core of `normalize_departamento` in `secop.py`: as the
generic normalizer but with `replace("ñ", "n")` and `replace("Ñ", "n")`
instead of deletion (both dead after the NFD step). -/
def normalizeDepartamentoStr (s : String) : String :=
  let t := (pyStrip s.toList).map lowerChar
  let t := t.flatMap nfdStrip
  let t := t.map (fun c => if c = 'ñ' then 'n' else c)
  let t := t.map (fun c => if c = 'Ñ' then 'n' else c)
  (collapseWs t).asString

/-- Embedding of `normalize_departamento` in `secop.py` (missing stays
missing). -/
def normalize_departamento (txt : Option String) : Option String :=
  match txt with
  | none => none
  | some s => some (normalizeDepartamentoStr s)

/-- Characters kept verbatim by the regex `[^a-z0-9 ]+` of
`normalize_name` in `outsiders.py`. -/
def regexKeep (c : Char) : Bool :=
  (('a' ≤ c && c ≤ 'z') || ('0' ≤ c && c ≤ '9') || c = ' ')

/-- Model of `re.sub(r"[^a-z0-9 ]+", " ", s)`: each maximal run of
characters outside `[a-z0-9 ]` is replaced by a single space.  Fuelled
for structural recursion (fuel `s.length` suffices). -/
def subBadRunsAux : Nat → List Char → List Char
  | _, [] => []
  | 0, s => s
  | n + 1, c :: rest =>
    if regexKeep c then c :: subBadRunsAux n rest
    else ' ' :: subBadRunsAux n (rest.dropWhile (fun d => !regexKeep d))

/-- Model of `re.sub(r"[^a-z0-9 ]+", " ", s)`. -/
def subBadRuns (s : List Char) : List Char :=
  subBadRunsAux s.length s

/-- Embedding of `normalize_name` in `outsiders.py`: missing becomes the
empty string; otherwise `lower`, NFD with combining marks dropped, the
`[^a-z0-9 ]+` substitution, whitespace collapse (`re.sub(r"\s+", " ")`
plus `strip`), and the manual correction of the truncated department
name `norte de san`. -/
def normalize_name (nm : Option String) : String :=
  match nm with
  | none => ""
  | some s =>
    let t := s.toList.map lowerChar
    let t := t.flatMap nfdStrip
    let t := subBadRuns t
    let t := collapseWs t
    if t = "norte de san".toList then "norte de santander"
    else t.asString

/-- Embedding of `normalize_text` in `final_database.py` (the merge-key
normalizer): missing becomes the empty string; otherwise `lower`,
`strip`, NFD with combining marks dropped, whitespace collapse, removal
of the literal substrings `d.c.`, `dc`, `distrito turistico y cultural`,
`distrito turistico`, `municipio de ` (each via Python `str.replace`,
with a `strip` after each group), then a lookup in the literal alias
table, defaulting to the string itself. -/
def normalize_text (txt : Option String) : String :=
  match txt with
  | none => ""
  | some str =>
    let s := pyStrip (str.toList.map lowerChar)
    let s := s.flatMap nfdStrip
    let s := collapseWs s
    let s := pyStrip (pyReplace "dc".toList [] (pyReplace "d.c.".toList [] s))
    let s := pyStrip (pyReplace "distrito turistico y cultural".toList [] s)
    let s := pyStrip (pyReplace "distrito turistico".toList [] s)
    let s := pyStrip (pyReplace "municipio de ".toList [] s)
    if s = "bogota".toList then "bogota"
    else if s = "cartagena de indias".toList then "cartagena"
    else if s = "barranquilla".toList then "barranquilla"
    else if s = "santa marta".toList then "santa marta"
    else if s = "san jose de cucuta".toList then "cucuta"
    else if s = "san andres".toList then "san andres"
    else if s = "providencia".toList then "providencia"
    else s.asString

example : normalizeTxtStr "  Alcaldía de  BOGOTÁ D.C. " = "alcaldia de bogota d.c." := by decide
example : normalize_name (some "NARIÑO  (Sur)") = "narino sur" := by decide
example : normalize_text (some "ddcc") = "dc" := by decide
example : normalize_text (some "dc") = "" := by decide
example : normalize_text (some "Municipio de  Cartagena De Indias") = "cartagena" := by decide

/-! ## The simplified-procedure modality predicate (`is_simplificada`) -/

/-- Convenience wrappers for the Python substring operators on strings. -/
def strSub (p s : String) : Bool := listSub p.toList s.toList

/-- Python `s.startswith(p)` on strings. -/
def strStarts (p s : String) : Bool := listStarts p.toList s.toList

/-- Decision core of `is_simplificada` in `secop.py`, applied to the
already-normalized modality text, with the source's exact branch order:
exclusions first, then the four inclusion rules, default `False`. -/
def simplificadaCore (m : String) : Bool :=
  if strStarts "enajenacion" m || strSub "subasta de prueba" m
      || strStarts "solicitud de informacion" m then false
  else if strSub "contratacion directa" m then true
  else if strSub "minima cuantia" m then true
  else if strSub "seleccion abreviada" m && strSub "menor cuantia" m
      && !strSub "subasta inversa" m then true
  else if strSub "regimen especial" m then true
  else false

/-- Embedding of `is_simplificada` in `secop.py`: a missing modality is
immediately `False`; otherwise the text is normalized with
`normalize_txt` (never `NaN` on non-null input, so the second `isna`
guard of the source is dead) and the exclusion/inclusion rules run. -/
def is_simplificada (m : Option String) : Bool :=
  match m with
  | none => false
  | some s =>
    match normalize_txt (some s) with
    | none => false
    | some t => simplificadaCore t

example : is_simplificada (some "Contratación Directa") = true := by decide
example : is_simplificada (some "Enajenación por Selección Abreviada Menor Cuantía") = false := by decide
example : is_simplificada (some "Selección abreviada menor cuantía con subasta inversa") = false := by decide
example : is_simplificada none = false := by decide

/-! ## The harmonized contract-record model and the `secop.py` pipeline

One `Registro` is a row of the concatenated intermediate table as
`secop.py` sees it after the initial parsing steps: the award date is
kept at year resolution (`fechaYear`, `none` for `NaT`, which is all the
main-window logic reads through `dt.year`), the award value is the
`pd.to_numeric(..., errors="coerce")` result (`none` for `NaN`), and the
entity tax id is the digit-stripped `pd.to_numeric` result (`none` when
nothing parseable remains). -/
structure Registro where
  id_del_proceso : Option String
  entidad : Option String
  nit_entidad : Option Int
  departamento_entidad : Option String
  ciudad_entidad : Option String
  modalidad_de_contratacion : Option String
  fechaYear : Option Int
  valor_total_adjudicacion : Option ℚ
  adjudicado : Option String
  nit_prov : Option String
  simplificada : Bool
  origen_dato : String
  deriving Repr, DecidableEq

/-- The value a pandas `sum` sees for one row: `NaN` counts as `0`
(pandas sums skip missing values). -/
def valOrZero (r : Registro) : ℚ := r.valor_total_adjudicacion.getD 0

/-- Python `str(x)` on a cell read back from CSV: a missing value prints
as `nan`. -/
def cellStr (o : Option String) : String := o.getD "nan"

/-- The awarded-flag truthiness test of `secop.py` line 94:
`astype(str).str.strip().str.lower().isin(["si","sí","true","1"])`. -/
def adjudicadoTruthy (o : Option String) : Bool :=
  let t := ((pyStrip (cellStr o).toList).map lowerChar).asString
  t = "si" || t = "sí" || t = "true" || t = "1"

/-- The final cross-source eligibility gate of `secop.py` lines 91-97:
positive parsed award value and truthy awarded flag. -/
def isAwarded (r : Registro) : Bool :=
  (match r.valor_total_adjudicacion with
   | some v => decide (0 < v)
   | none => false)
  && adjudicadoTruthy r.adjudicado

/-- Steps 1-3 of the `secop.py` preparation: drop rows with unparseable
award date, keep calendar years 2015-2023, apply the awarded gate, drop
rows with unparseable entity id. -/
def prepara (rs : List Registro) : List Registro :=
  let rs := rs.filter (fun r => r.fechaYear.isSome)
  let rs := rs.filter (fun r =>
    match r.fechaYear with
    | some y => decide (2015 ≤ y ∧ y ≤ 2023)
    | none => false)
  let rs := rs.filter isAwarded
  rs.filter (fun r => r.nit_entidad.isSome)

/-- Step 6 of the preparation: the `simplificada` column is recomputed
from the modality text. -/
def conSimplificada (rs : List Registro) : List Registro :=
  rs.map (fun r => { r with simplificada := is_simplificada r.modalidad_de_contratacion })

/-- The main analysis window of `secop.py` line 120: calendar years
2020-2023. -/
def dfMain (rs : List Registro) : List Registro :=
  rs.filter (fun r =>
    match r.fechaYear with
    | some y => decide (2020 ≤ y ∧ y ≤ 2023)
    | none => false)

/-- Number of distinct non-missing process identifiers of entity `e`
(`groupby("nit_entidad")["id_del_proceso"].nunique()`; pandas `nunique`
ignores missing values). -/
def distinctPids (rs : List Registro) (e : Int) : Nat :=
  (((rs.filter (fun r => r.nit_entidad = some e)).filterMap
      (fun r => r.id_del_proceso)).dedup).length

/-- The minimum-activity threshold of `secop.py` lines 124-126: the
per-entity distinct-process count is merged back onto the rows (an inner
merge on the entity id, which also drops rows with a missing id, since
pandas `groupby` omits `NaN` keys) and only rows whose entity has at
least two distinct processes survive. -/
def conUmbral (rs : List Registro) : List Registro :=
  rs.filter (fun r =>
    match r.nit_entidad with
    | some e => decide (2 ≤ distinctPids rs e)
    | none => false)

/-- The thresholded main-window table (`df_main` after line 126). -/
def dfMainT (rs : List Registro) : List Registro :=
  conUmbral (dfMain (conSimplificada (prepara rs)))

/-- The entity ids of a table, in first-appearance order (the row index
of any `groupby("nit_entidad")` result; `NaN` keys are dropped). -/
def entList (rs : List Registro) : List Int :=
  ((rs.filterMap (fun r => r.nit_entidad)).dedup)

/-- The entity ids of the `entity_info` summary (lines 133-141): one row
per entity of the thresholded main window — the descending sort on
`origen_dato` and the `first` aggregation permute and collapse rows but
leave the set of entity ids untouched, which is all the threshold claim
reads. -/
def entityInfoNits (rs : List Registro) : List Int :=
  entList (dfMainT rs)

/-! ### The concentration computation (lines 213-257) -/

/-- The distinct provider keys of entity `e` (the groups of
`groupby(["nit_entidad", "nit_prov"], dropna=False)`, so a missing
provider id is a group of its own). -/
def provsOf (rs : List Registro) (e : Int) : List (Option String) :=
  ((rs.filter (fun r => r.nit_entidad = some e)).map (fun r => r.nit_prov)).dedup

/-- Per-supplier aggregated value `v_i` (line 213-215). -/
def vI (rs : List Registro) (e : Int) (p : Option String) : ℚ :=
  (((rs.filter (fun r => r.nit_entidad = some e && r.nit_prov = p)).map
      valOrZero)).sum

/-- Total entity value `V` (lines 217-219): the sum of the per-supplier
values `v_i` over the provider groups of the entity. -/
def vTot (rs : List Registro) (e : Int) : ℚ :=
  ((provsOf rs e).map (fun p => vI rs e p)).sum

/-- The entities of the `res_hhi` table (lines 221-229): the `m_hhi`
rows are the `(entity, provider)` pairs, the filter `m_hhi["V"] > 0`
keeps exactly the entities with positive total value, and the final
groupby yields one row per surviving entity. -/
def resHhiEntities (rs : List Registro) : List Int :=
  (entList rs).filter (fun e => decide (0 < vTot rs e))

/-- The HHI of entity `e` (lines 223-228): the sum over the entity's
provider groups of the squared value shares. -/
def hhiOf (rs : List Registro) (e : Int) : ℚ :=
  ((provsOf rs e).map (fun p => (vI rs e p / vTot rs e) ^ 2)).sum

/-- The entities of the `res_conc` table (lines 233-241): one row per
entity of the grouped table, with no value-based skip. -/
def resConcEntities (rs : List Registro) : List Int :=
  entList rs

/-- The entity ids of `final_df` (line 251): the outer merge of
`res_hhi` with `res_conc` on the entity id keys — left keys first, then
the unmatched right keys; the later left merges (lines 253-255) never
add or remove rows. -/
def finalDfEntities (rs : List Registro) : List Int :=
  resHhiEntities rs ++
    (resConcEntities rs).filter (fun e => !(resHhiEntities rs).contains e)

/-- A sample awarded 2021 contract of entity `900123456`, used only by
concrete evaluations below. -/
def regBase : Registro :=
  { id_del_proceso := some "p1"
    entidad := some "Alcaldia de X"
    nit_entidad := some 900123456
    departamento_entidad := none
    ciudad_entidad := none
    modalidad_de_contratacion := none
    fechaYear := some 2021
    valor_total_adjudicacion := some 100
    adjudicado := some "Si"
    nit_prov := some "11"
    simplificada := false
    origen_dato := "SECOP II" }

/-- The worked HHI example of the specification: values 100 and 300 to
provider `11` and 600 to provider `22`. -/
def regsEjemplo : List Registro :=
  [regBase,
   { regBase with id_del_proceso := some "p2", valor_total_adjudicacion := some 300 },
   { regBase with id_del_proceso := some "p3", nit_prov := some "22",
                  valor_total_adjudicacion := some 600 }]

example : hhiOf (dfMainT regsEjemplo) 900123456 = 52 / 100 := by decide
example : vTot (dfMainT regsEjemplo) 900123456 = 1000 := by decide

/-! ## Geographic Recovery Engine (`secop.py` lines 144-208)

An `EntInfo` value is one row of `entity_info` as the recovery loop sees
it: the descriptive name and the two location fields. -/
structure EntInfo where
  entidad : Option String
  departamento_entidad : Option String
  ciudad_entidad : Option String
  deriving Repr, DecidableEq

/-- The mask of lines 165-169: the municipality cell is the literal
placeholder (case-insensitively), missing, or blank after stripping.
`astype(str)` turns a missing cell into the text `nan`, which is neither
`no definido` nor blank, so the `isna` disjunct is what catches it. -/
def maskNoDef (c : Option String) : Bool :=
  (((cellStr c).toList.map lowerChar).asString = "no definido")
  || c.isNone
  || ((pyStrip (cellStr c).toList).asString = "")

/-- The department-placeholder test of lines 201-202:
`str(...).lower().strip()` equal to `no definido` or `nan`, or missing. -/
def deptNoDef (d : Option String) : Bool :=
  let t := (pyStrip ((cellStr d).toList.map lowerChar)).asString
  t = "no definido" || t = "nan" || d.isNone

/-- One step of the longest-substring scan of lines 180-190: keep the
candidate municipality name when it is strictly longer than the best so
far, has more than 3 characters, and occurs in the normalized entity
name. -/
def pasoBusca (nombre : String) (acc : Option (String × String) × Nat)
    (md : String × String) : Option (String × String) × Nat :=
  if md.1.length > acc.2 && md.1.length > 3
      && listSub md.1.toList nombre.toList then
    (some md, md.1.length)
  else acc

/-- The scan itself: fold the step over the gazetteer starting from no
match and best length `0`, and return the found entry. -/
def buscaMunMasLargo (gaz : List (String × String)) (nombre : String) :
    Option (String × String) :=
  (gaz.foldl (pasoBusca nombre) ((none : Option (String × String)), 0)).1

/-- One entity's pass through the recovery loop (lines 174-203): rows
outside the mask are untouched; a row with a missing name is skipped; a
found municipality overwrites the municipality field, and the matching
department overwrites the department field only when that field is
itself placeholder or missing. -/
def recuperaEnt (gaz : List (String × String)) (e : EntInfo) : EntInfo :=
  if maskNoDef e.ciudad_entidad then
    match normalize_txt e.entidad with
    | none => e
    | some nombre =>
      match buscaMunMasLargo gaz nombre with
      | none => e
      | some (mun, dept) =>
        { e with
          ciudad_entidad := some mun
          departamento_entidad :=
            if deptNoDef e.departamento_entidad then some dept
            else e.departamento_entidad }
  else e

/-- The longest-match example gazetteer of the specification. -/
def gazBogota : List (String × String) :=
  [("bogota", "bogota"), ("bogota dc", "bogota")]

/-- The longest-match example entity of the specification. -/
def entBogota : EntInfo :=
  { entidad := some "alcaldia de bogota dc"
    departamento_entidad := none
    ciudad_entidad := some "No Definido" }

example :
    recuperaEnt gazBogota entBogota =
      { entidad := some "alcaldia de bogota dc"
        departamento_entidad := some "bogota"
        ciudad_entidad := some "bogota dc" } := by decide

/-! ## Electoral Comparator (`outsiders.py`)

One `Candidato` is a candidate-level row of the intermediate electoral
table, after the `outsider` column has been computed. -/
structure Candidato where
  codDepartamento : Int
  nombreDepartamento : String
  codMunicipio : Int
  nombreMunicipio : String
  anio : Int
  nombreCandidato : String
  codPartido : Int
  nombrePartido : Option String
  totalVotos : Int
  outsider : Nat
  deriving Repr, DecidableEq

/-- The official-party roster of `outsiders.py` lines 36-50. -/
def official_orgs_raw : List String :=
  ["AGRUPACION POLITICA EN MARCHA", "INDEPENDIENTES", "MOVIMIENTO SALVACION NACIONAL",
   "MOVIMIENTO ALIANZA DEMOCRATICA AMPLIA", "MOVIMIENTO ALTERNATIVO INDIGENA Y SOCIAL MAIS",
   "MOVIMIENTO AUTORIDADES INDIGENAS DE COLOMBIA AICO", "MOVIMIENTO ESPERANZA PAZ Y LIBERTAD",
   "MOVIMIENTO FUERZA CIUDADANA", "MOVIMIENTO POLITICO COLOMBIA HUMANA", "NUEVA FUERZA DEMOCRATICA",
   "PARTIDO ALIANZA SOCIAL INDEPENDIENTE ASI", "PARTIDO ALIANZA VERDE", "PARTIDO CAMBIO RADICAL",
   "PARTIDO CENTRO DEMOCRATICO", "PARTIDO COLOMBIA JUSTA LIBRES", "PARTIDO COLOMBIA RENACIENTE",
   "PARTIDO COMUNES", "PARTIDO COMUNISTA COLOMBIANO", "PARTIDO CONSERVADOR COLOMBIANO",
   "PARTIDO DE LA UNION POR LA GENTE PARTIDO DE LA U", "PARTIDO SOCIAL DE UNIDAD NACIONAL  PARTIDO DE LA U",
   "PARTIDO DEL TRABAJO DE COLOMBIA PTC", "PARTIDO DEMOCRATA COLOMBIANO", "PARTIDO ECOLOGISTA COLOMBIANO",
   "PARTIDO LIBERAL COLOMBIANO", "LIGA DE GOBERNANTES ANTICORRUPCION", "PARTIDO NUEVO LIBERALISMO",
   "PARTIDO POLO DEMOCRATICO ALTERNATIVO", "PARTIDO POLITICO CREEMOS", "PARTIDO POLITICO DIGNIDAD",
   "PARTIDO POLITICO GENTE EN MOVIMIENTO", "PARTIDO POLITICO LA FUERZA DE LA PAZ", "PARTIDO POLITICO MIRA",
   "PARTIDO UNION PATRIOTICA UP", "PARTIDO VERDE OXIGENO", "TODOS SOMOS COLOMBIA"]

/-- The normalized roster (`official_norms`). -/
def official_norms : List String :=
  official_orgs_raw.map (fun x => normalize_name (some x))

/-- Embedding of `is_outsider`: an empty normalized party name is an
outsider; a party whose normalized name contains or is contained in some
roster entry is establishment (`0`); anything else is an outsider (`1`). -/
def is_outsider (partido : Option String) : Nat :=
  let n := normalize_name partido
  if n = "" then 1
  else if official_norms.any
      (fun off => listSub off.toList n.toList || listSub n.toList off.toList) then 0
  else 1

/-- Step 4 of `outsiders.py`: the `outsider` column. -/
def conOutsider (rs : List Candidato) : List Candidato :=
  rs.map (fun r => { r with outsider := is_outsider r.nombrePartido })

/-- The grouping key of the mixed-municipality gate (the code/code pair,
the branch taken when both code columns exist). -/
def grupoKey (r : Candidato) : Int × Int :=
  (r.codDepartamento, r.codMunicipio)

/-- Number of distinct `outsider` values in a municipality group
(`groupby(group_cols)["outsider"].transform(lambda s: s.nunique())`). -/
def nuniqueOutsider (rs : List Candidato) (k : Int × Int) : Nat :=
  (((rs.filter (fun r => grupoKey r = k)).map (fun r => r.outsider)).dedup).length

/-- The mixed-municipality filter (`mask_mixed`, lines 92-93). -/
def filasMixtas (rs : List Candidato) : List Candidato :=
  rs.filter (fun r => nuniqueOutsider rs (grupoKey r) = 2)

/-- Stable insertion of one element under a boolean "comes no later
than" relation (model of a sort step). -/
def insSorted (le : Candidato → Candidato → Bool) (a : Candidato) :
    List Candidato → List Candidato
  | [] => [a]
  | b :: bs => if le a b then a :: b :: bs else b :: insSorted le a bs

/-- Insertion sort used to model `sort_values`; only the multiset of
rows matters to the claims below, so any correct sort is adequate. -/
def sortBy (le : Candidato → Candidato → Bool) : List Candidato → List Candidato
  | [] => []
  | a :: as => insSorted le a (sortBy le as)

/-- The sort key of line 105: group columns ascending, then `outsider`
ascending, then votes descending. -/
def leComparativa (a b : Candidato) : Bool :=
  if a.codDepartamento ≠ b.codDepartamento then decide (a.codDepartamento < b.codDepartamento)
  else if a.codMunicipio ≠ b.codMunicipio then decide (a.codMunicipio < b.codMunicipio)
  else if a.outsider ≠ b.outsider then decide (a.outsider < b.outsider)
  else decide (b.totalVotos ≤ a.totalVotos)

/-- The `best_candidates` table of line 108: for every present
`(group, outsider)` pair, the first row of the sorted filtered table. -/
def bestCandidates (rs : List Candidato) : List Candidato :=
  let f := sortBy leComparativa (filasMixtas rs)
  ((f.map (fun r => (grupoKey r, r.outsider))).dedup).filterMap
    (fun kb => f.find? (fun r => grupoKey r = kb.1 && r.outsider = kb.2))

/-- The merge key of lines 135-137 (location columns plus year). -/
def mergeKey (r : Candidato) : Int × String × Int × String × Int :=
  (r.codDepartamento, r.nombreDepartamento, r.codMunicipio, r.nombreMunicipio, r.anio)

/-- The final comparison table of `outsiders.py` (lines 111-149): inner
merge of the best outsider rows with the best establishment rows on the
merge key.  Each element is the (outsider row, establishment row) pair
of one output row; the vote difference and margin are recomputed from it
downstream and add no information to the row set. -/
def electionRows (raw : List Candidato) : List (Candidato × Candidato) :=
  let bs := bestCandidates (conOutsider raw)
  let outs := bs.filter (fun r => r.outsider = 1)
  let nons := bs.filter (fun r => r.outsider = 0)
  (outs.map (fun o => (nons.filter (fun n => mergeKey n = mergeKey o)).map
      (fun n => (o, n)))).flatten

/-! ## Per-source eligibility filters (`process_secop1.py`, `process_secop2.py`)

A `RegFuente` value is a raw-source row restricted to the fields the
eligibility filters read, already column-renamed to the harmonized
names.  Column presence in the raw export is data-dependent, so it is
threaded explicitly, mirroring the `if col in df.columns` guards; a
value sitting in an absent column is never read, and the harmonization
step fills absent columns with missing values. -/
structure RegFuente where
  estado : Option String
  valor : Option ℚ
  fecha : Option String
  adjudicado : Option String
  deriving Repr, DecidableEq

/-- Python `str.title()`: the first alphabetic character of each
alphabetic run is uppercased, the rest lowercased. -/
def pyTitleAux : Bool → List Char → List Char
  | _, [] => []
  | prevAlpha, c :: rest =>
    let alpha := (('a' ≤ lowerChar c && lowerChar c ≤ 'z') || c = 'á' || c = 'é'
        || c = 'í' || c = 'ó' || c = 'ú' || c = 'ü' || c = 'ñ' || c = 'Á' || c = 'É'
        || c = 'Í' || c = 'Ó' || c = 'Ú' || c = 'Ü' || c = 'Ñ')
    (if alpha then (if prevAlpha then lowerChar c else upperChar c) else c)
      :: pyTitleAux alpha rest

/-- Python `str.title()` on an optional cell (`astype(str)` first). -/
def pyTitle (o : Option String) : String :=
  (pyTitleAux false (cellStr o).toList).asString

/-- The SECOP I status whitelist (`valid_states`). -/
def estadosValidos1 : List String :=
  ["Celebrado", "Liquidado", "Terminado", "Adjudicado", "Ejecución", "Tramitado"]

/-- Embedding of `clean_and_process_secop1`: title-cased status must be
whitelisted (when the status column exists), parsed value must be
positive (when the value column exists), the date must be present (when
the date column exists); every surviving row gets the literal awarded
flag `Si`.  The later column-fill of `process_secop1` replaces the value
of any absent column with a missing value. -/
def clean_and_process_secop1 (hasEstado hasCuantia hasFecha : Bool)
    (rs : List RegFuente) : List RegFuente :=
  let rs := if hasEstado then
      (rs.map (fun r => { r with estado := some (pyTitle r.estado) })).filter
        (fun r => estadosValidos1.contains (cellStr r.estado)) else rs
  let rs := if hasCuantia then
      rs.filter (fun r =>
        match r.valor with
        | some v => decide (0 < v)
        | none => false) else rs
  let rs := if hasFecha then rs.filter (fun r => r.fecha.isSome) else rs
  let rs := rs.map (fun r => { r with adjudicado := some "Si" })
  rs.map (fun r =>
    { r with
      valor := if hasCuantia then r.valor else none
      fecha := if hasFecha then r.fecha else none
      estado := if hasEstado then r.estado else none })

/-- The SECOP II awarded-flag truthiness of `process_secop2.py` line 36:
`astype(str).str.lower().isin(["si","sí","true","1"])` (no strip). -/
def adjTruthy2 (o : Option String) : Bool :=
  let t := ((cellStr o).toList.map lowerChar).asString
  t = "si" || t = "sí" || t = "true" || t = "1"

/-- The SECOP II status fallback whitelist. -/
def estadosValidos2 : List String := ["Adjudicado", "Celebrado", "Seleccionado"]

/-- Embedding of `clean_and_process_secop2`: the awarded-flag filter
when that column exists, otherwise the status fallback; then the
positive-value and date-present filters, each guarded by column
presence.  The later column-fill of `process_secop2` replaces the value
of any absent column with a missing value — in particular, in the
status-fallback case every surviving row ends up with a missing
`adjudicado`. -/
def clean_and_process_secop2 (hasAdj hasEstado hasValor hasFecha : Bool)
    (rs : List RegFuente) : List RegFuente :=
  let rs := if hasAdj then rs.filter (fun r => adjTruthy2 r.adjudicado)
    else if hasEstado then
      rs.filter (fun r => estadosValidos2.contains (cellStr r.estado)) else rs
  let rs := if hasValor then
      rs.filter (fun r =>
        match r.valor with
        | some v => decide (0 < v)
        | none => false) else rs
  let rs := if hasFecha then rs.filter (fun r => r.fecha.isSome) else rs
  rs.map (fun r =>
    { r with
      adjudicado := if hasAdj then r.adjudicado else none
      valor := if hasValor then r.valor else none
      fecha := if hasFecha then r.fecha else none
      estado := if hasEstado then r.estado else none })

/-- The final cross-source gate of `secop.py` lines 91-97 applied to a
harmonized source row: positive value and truthy
(`strip` + `lower`) awarded flag. -/
def pasaFiltroFinal (r : RegFuente) : Bool :=
  (match r.valor with
   | some v => decide (0 < v)
   | none => false)
  && adjudicadoTruthy r.adjudicado

example :
    clean_and_process_secop2 false true true true
      [{ estado := some "Adjudicado", valor := some 100,
         fecha := some "2021-05-05", adjudicado := some "Si" }] =
      [{ estado := some "Adjudicado", valor := some 100,
         fecha := some "2021-05-05", adjudicado := none }] := by decide

/-! ## Theorems -/

/-- Boolean reshaping of the `is_simplificada` branch cascade: the
sequential `if` chain of the source equals exclusion-guarded disjunction
of the inclusion rules. -/
theorem simplificadaShape (e1 e2 e3 c1 c2 sa mc si re : Bool) :
    (if e1 || e2 || e3 then false
     else if c1 then true
     else if c2 then true
     else if sa && mc && !si then true
     else if re then true
     else false)
    = (if e1 || e2 || e3 then false
       else (c1 || c2 || re || (sa && mc && !si))) := by
  revert e1 e2 e3 c1 c2 sa mc si re
  decide

/-- Claim C4: on normalized modality text the classifier returns `False`
whenever the text starts with `enajenacion`, contains
`subasta de prueba`, or starts with `solicitud de informacion`, the
exclusions taking precedence; otherwise it returns `True` exactly when
the text contains `contratacion directa`, or `minima cuantia`, or
`regimen especial`, or contains both `seleccion abreviada` and
`menor cuantia` without `subasta inversa`.  `is_simplificada` is the
composition of this core with `normalize_txt`, and the modality
`enajenacion por seleccion abreviada menor cuantia` classifies as not
simplified. -/
theorem claim_C4_simplificada :
    (∀ t : String,
      simplificadaCore t =
        (if strStarts "enajenacion" t || strSub "subasta de prueba" t
            || strStarts "solicitud de informacion" t then false
         else (strSub "contratacion directa" t || strSub "minima cuantia" t
            || strSub "regimen especial" t
            || (strSub "seleccion abreviada" t && strSub "menor cuantia" t
                && !strSub "subasta inversa" t))))
    ∧ (∀ s : String, is_simplificada (some s) = simplificadaCore (normalizeTxtStr s))
    ∧ is_simplificada (some "enajenacion por seleccion abreviada menor cuantia") = false := by
  refine ⟨fun t => ?_, fun s => rfl, by decide⟩
  unfold simplificadaCore
  exact simplificadaShape _ _ _ _ _ _ _ _ _

/-- Claim C10: the simplified-procedure predicate is total on missing
input — a missing contracting modality is classified as not simplified
(`False`), and the function is a total Lean function, so no error can be
raised. -/
theorem claim_C10_simplificada_none : is_simplificada none = false := rfl

/-- Claim C9 fails as stated: on absent (missing) input the generic
`secop.py` normalizer does not return the empty string — it propagates
the missing value (`np.nan`). -/
theorem claim_C9_cex : ¬ (normalize_txt none = some "") := by decide

/-- Claim C9 amended: every normalizer is a total function (so no input
raises), and on the empty string every normalizer returns the empty
string; on absent input `normalize_name` and `normalize_text` return the
empty string, while the three `secop.py` normalizers propagate the
missing value instead. -/
theorem claim_C9_amended :
    normalize_txt (some "") = some "" ∧ normalize_ciudad (some "") = some ""
    ∧ normalize_departamento (some "") = some "" ∧ normalize_name (some "") = ""
    ∧ normalize_text (some "") = ""
    ∧ normalize_name none = "" ∧ normalize_text none = ""
    ∧ normalize_txt none = none ∧ normalize_ciudad none = none
    ∧ normalize_departamento none = none := by
  decide

/-- Rows surviving the preparation filters are input rows that passed
the awarded gate. -/
theorem mem_prepara {rs : List Registro} {r : Registro} (h : r ∈ prepara rs) :
    r ∈ rs ∧ isAwarded r = true := by
  unfold prepara at h
  have h1 := List.mem_filter.mp h
  have h2 := List.mem_filter.mp h1.1
  have h3 := List.mem_filter.mp h2.1
  have h4 := List.mem_filter.mp h3.1
  exact ⟨h4.1, h2.2⟩

/-- Every row of the thresholded main window descends from an input row
that passed the awarded gate and carries the same entity id and value. -/
theorem mem_dfMainT {rs : List Registro} {r : Registro} (h : r ∈ dfMainT rs) :
    ∃ r0 ∈ rs, isAwarded r0 = true ∧ r0.nit_entidad = r.nit_entidad
      ∧ r0.valor_total_adjudicacion = r.valor_total_adjudicacion := by
  unfold dfMainT conUmbral dfMain at h
  have h1 := List.mem_of_mem_filter h
  have h2 := List.mem_of_mem_filter h1
  unfold conSimplificada at h2
  obtain ⟨r0, hr0, hmap⟩ := List.mem_map.mp h2
  obtain ⟨hin, haw⟩ := mem_prepara hr0
  subst hmap
  exact ⟨r0, hin, haw, rfl, rfl⟩

/-- A row that passes the awarded gate has a strictly positive value. -/
theorem isAwarded_pos {r : Registro} (h : isAwarded r = true) :
    0 < valOrZero r := by
  unfold isAwarded at h
  rw [Bool.and_eq_true] at h
  have h1 := h.1
  unfold valOrZero
  cases hv : r.valor_total_adjudicacion with
  | none => rw [hv] at h1; cases h1
  | some v => rw [hv] at h1; simpa using of_decide_eq_true h1

/-- Entity membership in a table gives a row carrying that id. -/
theorem mem_entList {rs : List Registro} {e : Int} (h : e ∈ entList rs) :
    ∃ r ∈ rs, r.nit_entidad = some e := by
  unfold entList at h
  rw [List.mem_dedup] at h
  obtain ⟨r, hr, hnit⟩ := List.mem_filterMap.mp h
  exact ⟨r, hr, hnit⟩

/-- Claim C1: a zero total award value is exactly the skip condition of
the HHI table — an entity with `V = 0` gets no `res_hhi` row, an entity
of the table with `V > 0` always gets one — and an entity all of whose
input contracts carry value `0` (or a missing value) is eliminated by
the eligibility filter, so it gets no row at all in the final
concentration table of the main window. -/
theorem claim_C1_zero_value_skip :
    ∀ (rs : List Registro) (e : Int),
      (vTot rs e = 0 → e ∉ resHhiEntities rs)
      ∧ (e ∈ entList rs → 0 < vTot rs e → e ∈ resHhiEntities rs)
      ∧ ((∀ r ∈ rs, r.nit_entidad = some e → valOrZero r = 0) →
          e ∉ finalDfEntities (dfMainT rs)) := by
  intro rs e
  refine ⟨?_, ?_, ?_⟩
  · intro hV hmem
    unfold resHhiEntities at hmem
    have := (List.mem_filter.mp hmem).2
    have hlt := of_decide_eq_true this
    rw [hV] at hlt
    exact lt_irrefl 0 hlt
  · intro hent hV
    unfold resHhiEntities
    exact List.mem_filter.mpr ⟨hent, decide_eq_true hV⟩
  · intro hzero hmem
    have hent : e ∈ entList (dfMainT rs) := by
      unfold finalDfEntities at hmem
      rcases List.mem_append.mp hmem with hl | hr
      · exact (List.mem_filter.mp hl).1
      · exact (List.mem_filter.mp hr).1
    obtain ⟨r, hr, hnit⟩ := mem_entList hent
    obtain ⟨r0, hr0, haw, hnit0, hval0⟩ := mem_dfMainT hr
    have hpos := isAwarded_pos haw
    have hz := hzero r0 hr0 (hnit0.trans hnit)
    rw [hz] at hpos
    exact lt_irrefl 0 hpos

/-- A contract row with value zero (used by the C1 witness). -/
def regCero : Registro :=
  { regBase with valor_total_adjudicacion := some 0 }

/-- Witness for claim C1 at concrete inputs: the zero-value entity is
absent from both tables, and the worked example entity with `V = 1000`
is present in the HHI table. -/
theorem claim_C1_zero_value_skip_witness :
    (900123456 ∉ resHhiEntities [regCero])
    ∧ (900123456 ∈ resHhiEntities (dfMainT regsEjemplo))
    ∧ (900123456 ∉ finalDfEntities (dfMainT [regCero])) :=
  ⟨(claim_C1_zero_value_skip [regCero] 900123456).1 (by decide),
   (claim_C1_zero_value_skip (dfMainT regsEjemplo) 900123456).2.1 (by decide) (by decide),
   (claim_C1_zero_value_skip [regCero] 900123456).2.2 (by decide)⟩

/-- Claim C5: every entity id of the aggregated summary output counts at
least two distinct process identifiers among the (pre-threshold)
main-window rows. -/
theorem claim_C5_threshold :
    ∀ (rs : List Registro) (e : Int),
      e ∈ entityInfoNits rs →
      2 ≤ distinctPids (dfMain (conSimplificada (prepara rs))) e := by
  intro rs e h
  unfold entityInfoNits at h
  obtain ⟨r, hr, hnit⟩ := mem_entList h
  unfold dfMainT conUmbral at hr
  have hp := (List.mem_filter.mp hr).2
  rw [hnit] at hp
  exact of_decide_eq_true hp

/-- Witness for claim C5: the worked example entity appears in the
summary and indeed has three distinct processes. -/
theorem claim_C5_threshold_witness :
    900123456 ∈ entityInfoNits regsEjemplo
    ∧ 2 ≤ distinctPids (dfMain (conSimplificada (prepara regsEjemplo))) 900123456 :=
  ⟨by decide, claim_C5_threshold regsEjemplo 900123456 (by decide)⟩

/-- A gazetteer entry that the recovery scan may select for a given
normalized entity name: its municipality name has at least 4 characters
(the source requires strictly more than 3) and occurs as a substring of
the name. -/
def esMatchMun (nombre : String) (md : String × String) : Prop :=
  4 ≤ md.1.length ∧ listSub md.1.toList nombre.toList = true

instance (nombre : String) (md : String × String) :
    Decidable (esMatchMun nombre md) := by
  unfold esMatchMun; infer_instance

/-- Invariant of the longest-match fold: after scanning `seen`, either
nothing matched yet and the state is the initial one, or the state holds
a match from `seen` of maximal length among the matches of `seen`. -/
def invBusca (nombre : String) (seen : List (String × String))
    (st : Option (String × String) × Nat) : Prop :=
  (st.1 = none ∧ st.2 = 0 ∧ ∀ md ∈ seen, ¬ esMatchMun nombre md)
  ∨ (∃ m d, st.1 = some (m, d) ∧ st.2 = m.length ∧ (m, d) ∈ seen
      ∧ esMatchMun nombre (m, d)
      ∧ ∀ md ∈ seen, esMatchMun nombre md → md.1.length ≤ m.length)

/-- One step of the scan preserves the invariant. -/
theorem invBusca_paso {nombre : String} {seen : List (String × String)}
    {st : Option (String × String) × Nat} (md : String × String)
    (h : invBusca nombre seen st) :
    invBusca nombre (seen ++ [md]) (pasoBusca nombre st md) := by
  unfold pasoBusca
  by_cases hc : (md.1.length > st.2 && md.1.length > 3
      && listSub md.1.toList nombre.toList) = true
  · rw [if_pos hc]
    rw [Bool.and_eq_true, Bool.and_eq_true] at hc
    obtain ⟨⟨h1, h2⟩, h3⟩ := hc
    have hlt : st.2 < md.1.length := of_decide_eq_true h1
    have hlen : 4 ≤ md.1.length := of_decide_eq_true h2
    refine Or.inr ⟨md.1, md.2, rfl, rfl, ?_, ⟨hlen, h3⟩, ?_⟩
    · exact List.mem_append.mpr (Or.inr (List.mem_singleton.mpr rfl))
    · intro md' hm' hmatch'
      rcases List.mem_append.mp hm' with hs | hone
      · rcases h with ⟨_, h0, hnone⟩ | ⟨m, d, _, hlen0, _, _, hmax⟩
        · exact absurd hmatch' (hnone md' hs)
        · calc md'.1.length ≤ m.length := hmax md' hs hmatch'
            _ = st.2 := hlen0.symm
            _ ≤ md.1.length := le_of_lt hlt
      · rw [List.mem_singleton.mp hone]
  · rw [if_neg hc]
    have hnomatch : esMatchMun nombre md → md.1.length ≤ st.2 := by
      intro ⟨hl, hsub⟩
      by_contra hgt
      push_neg at hgt
      apply hc
      rw [Bool.and_eq_true, Bool.and_eq_true]
      exact ⟨⟨decide_eq_true hgt, decide_eq_true (by omega)⟩, hsub⟩
    rcases h with ⟨hn, h0, hnone⟩ | ⟨m, d, hsome, hlen0, hmem, hmatch, hmax⟩
    · refine Or.inl ⟨hn, h0, ?_⟩
      intro md' hm'
      rcases List.mem_append.mp hm' with hs | hone
      · exact hnone md' hs
      · rw [List.mem_singleton.mp hone]
        intro hmd
        have hle := hnomatch hmd
        obtain ⟨hl4, _⟩ := hmd
        rw [h0] at hle
        omega
    · refine Or.inr ⟨m, d, hsome, hlen0, List.mem_append.mpr (Or.inl hmem), hmatch, ?_⟩
      intro md' hm' hmatch'
      rcases List.mem_append.mp hm' with hs | hone
      · exact hmax md' hs hmatch'
      · rw [List.mem_singleton.mp hone] at hmatch' ⊢
        rw [← hlen0]
        exact hnomatch hmatch'

/-- The fold preserves the invariant along any remaining gazetteer. -/
theorem invBusca_foldl (nombre : String) :
    ∀ (l seen : List (String × String)) (st : Option (String × String) × Nat),
      invBusca nombre seen st →
      invBusca nombre (seen ++ l) (l.foldl (pasoBusca nombre) st) := by
  intro l
  induction l with
  | nil => intro seen st h; simpa using h
  | cons md l ih =>
    intro seen st h
    have step := invBusca_paso md h
    have := ih (seen ++ [md]) (pasoBusca nombre st md) step
    simpa [List.append_assoc] using this

/-- The scan satisfies its invariant over the whole gazetteer. -/
theorem busca_spec (gaz : List (String × String)) (nombre : String) :
    invBusca nombre gaz (gaz.foldl (pasoBusca nombre) (none, 0)) := by
  have := invBusca_foldl nombre gaz [] (none, 0)
    (Or.inl ⟨rfl, rfl, by simp⟩)
  simpa using this

/-- Claim C3: for an entity whose municipality is missing, blank or the
placeholder, and whose display name is present, whenever some gazetteer
entry of length at least 4 matches the normalized name as a substring,
the recovery sets the municipality to a matching gazetteer entry of
maximal length among all matches, and sets the department from the
gazetteer exactly when the entity department is itself missing or
placeholder; moreover, on the specification example gazetteer
(`bogota`, `bogota dc`) and entity name `alcaldia de bogota dc`, the
recovered municipality is `bogota dc` with department `bogota`. -/
theorem claim_C3_recovery :
    (∀ (gaz : List (String × String)) (e : EntInfo) (nm m0 d0 : String),
      maskNoDef e.ciudad_entidad = true →
      e.entidad = some nm →
      (m0, d0) ∈ gaz →
      esMatchMun (normalizeTxtStr nm) (m0, d0) →
      ∃ m d, buscaMunMasLargo gaz (normalizeTxtStr nm) = some (m, d)
        ∧ (m, d) ∈ gaz
        ∧ esMatchMun (normalizeTxtStr nm) (m, d)
        ∧ (∀ md ∈ gaz, esMatchMun (normalizeTxtStr nm) md → md.1.length ≤ m.length)
        ∧ (recuperaEnt gaz e).ciudad_entidad = some m
        ∧ (recuperaEnt gaz e).departamento_entidad =
            (if deptNoDef e.departamento_entidad then some d
             else e.departamento_entidad))
    ∧ recuperaEnt gazBogota entBogota =
        { entidad := some "alcaldia de bogota dc"
          departamento_entidad := some "bogota"
          ciudad_entidad := some "bogota dc" } := by
  constructor
  · intro gaz e nm m0 d0 hmask hent hmem hmatch
    have hspec := busca_spec gaz (normalizeTxtStr nm)
    rcases hspec with ⟨_, _, hnone⟩ | ⟨m, d, hsome, _, hmemg, hmatchg, hmax⟩
    · exact absurd hmatch (hnone (m0, d0) hmem)
    · have hbusca : buscaMunMasLargo gaz (normalizeTxtStr nm) = some (m, d) := hsome
      refine ⟨m, d, hbusca, hmemg, hmatchg, hmax, ?_, ?_⟩ <;>
      · unfold recuperaEnt
        rw [hmask, hent]
        simp only [normalize_txt, if_true]
        rw [hbusca]
  · decide

/-- Witness for claim C3 at the specification example: the general part
applied to the two-entry gazetteer, discharging every hypothesis by
computation. -/
theorem claim_C3_recovery_witness :
    ∃ m d, buscaMunMasLargo gazBogota (normalizeTxtStr "alcaldia de bogota dc") = some (m, d)
      ∧ (m, d) ∈ gazBogota
      ∧ esMatchMun (normalizeTxtStr "alcaldia de bogota dc") (m, d)
      ∧ (∀ md ∈ gazBogota,
          esMatchMun (normalizeTxtStr "alcaldia de bogota dc") md → md.1.length ≤ m.length)
      ∧ (recuperaEnt gazBogota entBogota).ciudad_entidad = some m
      ∧ (recuperaEnt gazBogota entBogota).departamento_entidad =
          (if deptNoDef entBogota.departamento_entidad then some d
           else entBogota.departamento_entidad) :=
  claim_C3_recovery.1 gazBogota entBogota "alcaldia de bogota dc" "bogota" "bogota"
    (by decide) (by decide) (by decide) (by decide)

/-- Stable insertion permutes. -/
theorem insSorted_perm (le : Candidato → Candidato → Bool) (a : Candidato) :
    ∀ l : List Candidato, (insSorted le a l).Perm (a :: l) := by
  intro l
  induction l with
  | nil => exact List.Perm.refl _
  | cons b bs ih =>
    unfold insSorted
    by_cases hc : le a b = true
    · rw [if_pos hc]
    · rw [if_neg hc]
      exact (ih.cons b).trans (List.Perm.swap a b bs)

/-- The modelled sort permutes its input. -/
theorem sortBy_perm (le : Candidato → Candidato → Bool) :
    ∀ l : List Candidato, (sortBy le l).Perm l := by
  intro l
  induction l with
  | nil => exact List.Perm.refl _
  | cons a as ih =>
    unfold sortBy
    exact ((insSorted_perm le a (sortBy le as)).trans (ih.cons a))

/-- Every best-candidate row is one of the mixed-municipality rows. -/
theorem mem_bestCandidates {rs : List Candidato} {r : Candidato}
    (h : r ∈ bestCandidates rs) : r ∈ filasMixtas rs := by
  unfold bestCandidates at h
  obtain ⟨kb, _, hfind⟩ := List.mem_filterMap.mp h
  have hmem := List.mem_of_find?_eq_some hfind
  exact ((sortBy_perm leComparativa (filasMixtas rs)).mem_iff).mp hmem

/-- A list whose members are all one value deduplicates to at most one
element. -/
theorem dedup_length_le_one {l : List Nat} {b : Nat}
    (h : ∀ x ∈ l, x = b) : l.dedup.length ≤ 1 := by
  have hnd : l.dedup.Nodup := List.nodup_dedup l
  have hall : ∀ x ∈ l.dedup, x = b := fun x hx => h x (List.mem_dedup.mp hx)
  cases hd : l.dedup with
  | nil => simp
  | cons x xs =>
    cases hx : xs with
    | nil => simp
    | cons y ys =>
      exfalso
      rw [hd, hx] at hnd hall
      have hxy : x = y := by
        rw [hall x (by simp), hall y (by simp)]
      have := List.Nodup.not_mem hnd
      exact this (by rw [hxy]; simp)

/-- Rows sharing the merge key share the municipality group key. -/
theorem mergeKey_grupoKey {a b : Candidato} (h : mergeKey a = mergeKey b) :
    grupoKey a = grupoKey b := by
  unfold mergeKey at h
  unfold grupoKey
  simp only [Prod.mk.injEq] at h ⊢
  exact ⟨h.1, h.2.2.1⟩

/-- Claim C6: a municipality all of whose classified candidate rows have
one and the same outsider flag contributes no row to the electoral
comparison output; only mixed municipalities survive the gate. -/
theorem claim_C6_mixed_gate :
    ∀ (raw : List Candidato) (cd cm : Int) (b : Nat),
      (∀ r ∈ conOutsider raw, grupoKey r = (cd, cm) → r.outsider = b) →
      (electionRows raw).filter
        (fun pr => decide (grupoKey pr.1 = (cd, cm))
          || decide (grupoKey pr.2 = (cd, cm))) = [] := by
  intro raw cd cm b hall
  rw [List.filter_eq_nil_iff]
  intro pr hpr
  simp only [Bool.or_eq_true, decide_eq_true_eq]
  rintro (hk | hk)
  all_goals {
    unfold electionRows at hpr
    obtain ⟨l, hl, hprl⟩ := List.mem_flatten.mp hpr
    obtain ⟨o, ho, rfl⟩ := List.mem_map.mp hl
    obtain ⟨n, hn, rfl⟩ := List.mem_map.mp hprl
    have hnf := List.mem_filter.mp hn
    have hmk : mergeKey n = mergeKey o := of_decide_eq_true hnf.2
    have ho1 : o ∈ bestCandidates (conOutsider raw) :=
      List.mem_of_mem_filter ho
    have homix : o ∈ filasMixtas (conOutsider raw) := mem_bestCandidates ho1
    have h2 := (List.mem_filter.mp homix).2
    have hnu : nuniqueOutsider (conOutsider raw) (grupoKey o) = 2 :=
      of_decide_eq_true h2
    have hko : grupoKey o = (cd, cm) := by
      first
      | exact hk
      | exact (mergeKey_grupoKey hmk).symm.trans hk
    have hle : nuniqueOutsider (conOutsider raw) (grupoKey o) ≤ 1 := by
      unfold nuniqueOutsider
      apply dedup_length_le_one (b := b)
      intro x hx
      obtain ⟨r, hr, rfl⟩ := List.mem_map.mp hx
      have hrf := List.mem_filter.mp hr
      exact hall r hrf.1 ((of_decide_eq_true hrf.2).trans hko)
    omega
  }

/-- A candidate row of the example municipality `(1, 1)` with no party
affiliation (classified outsider). -/
def candBase : Candidato :=
  { codDepartamento := 1, nombreDepartamento := "antioquia"
    codMunicipio := 1, nombreMunicipio := "medellin", anio := 2019
    nombreCandidato := "A", codPartido := 10, nombrePartido := none
    totalVotos := 5000, outsider := 0 }

/-- Two candidates of one municipality, both classified outsider. -/
def candsEjemplo : List Candidato :=
  [candBase, { candBase with nombreCandidato := "B", totalVotos := 7000 }]

/-- Witness for claim C6: a municipality whose two candidates are both
classified outsider yields no comparison row. -/
theorem claim_C6_mixed_gate_witness :
    (∀ r ∈ conOutsider candsEjemplo, grupoKey r = (1, 1) → r.outsider = 1)
    ∧ (electionRows candsEjemplo).filter
        (fun pr => decide (grupoKey pr.1 = (1, 1))
          || decide (grupoKey pr.2 = (1, 1))) = [] :=
  ⟨by decide, claim_C6_mixed_gate candsEjemplo 1 1 1 (by decide)⟩

/-! ### The HHI bounds (claim C2) -/

/-- The HHI of a list of per-supplier values: sum of squared shares. -/
def hhiList (vs : List ℚ) : ℚ :=
  (vs.map (fun v => (v / vs.sum) ^ 2)).sum

/-- The sum of squares of nonnegative values is at most the square of
the sum. -/
theorem sum_sq_le_sq_sum (l : List ℚ) (h : ∀ v ∈ l, 0 ≤ v) :
    (l.map (fun v => v ^ 2)).sum ≤ l.sum ^ 2 := by
  induction l with
  | nil => simp
  | cons v t ih =>
    simp only [List.map_cons, List.sum_cons]
    have hv : 0 ≤ v := h v (by simp)
    have hts : 0 ≤ t.sum := List.sum_nonneg (fun x hx => h x (by simp [hx]))
    have iht := ih (fun x hx => h x (by simp [hx]))
    nlinarith [mul_nonneg hv hts]

/-- With at least two strictly positive values the inequality is
strict. -/
theorem sum_sq_lt_sq_sum (l : List ℚ) (h : ∀ v ∈ l, 0 < v)
    (hl : 2 ≤ l.length) : (l.map (fun v => v ^ 2)).sum < l.sum ^ 2 := by
  cases l with
  | nil => simp at hl
  | cons v t =>
    cases t with
    | nil => simp at hl
    | cons w t =>
      simp only [List.map_cons, List.sum_cons]
      have hv : 0 < v := h v (by simp)
      have hw : 0 < w := h w (by simp)
      have hts : 0 ≤ t.sum := List.sum_nonneg (fun x hx => le_of_lt (h x (by simp [hx])))
      have hle : ((w :: t).map (fun v => v ^ 2)).sum ≤ (w :: t).sum ^ 2 :=
        sum_sq_le_sq_sum (w :: t) (fun x hx => le_of_lt (h x (by simp [hx])))
      simp only [List.map_cons, List.sum_cons] at hle
      nlinarith [mul_pos hv (by linarith : (0 : ℚ) < w + t.sum)]

/-- Shares factor: the HHI equals the sum of squared values divided by
the squared sum. -/
theorem hhiList_eq_div (vs : List ℚ) :
    hhiList vs = (vs.map (fun v => v ^ 2)).sum / vs.sum ^ 2 := by
  unfold hhiList
  have hfun : (fun v => (v / vs.sum) ^ 2) = fun v => v ^ 2 * (vs.sum ^ 2)⁻¹ := by
    funext v
    rw [div_pow, div_eq_mul_inv]
  rw [hfun, List.sum_map_mul_right, div_eq_mul_inv]

/-- The HHI of a nonempty list of positive values is positive. -/
theorem hhiList_pos (vs : List ℚ) (h : ∀ v ∈ vs, 0 < v) (hne : vs ≠ []) :
    0 < hhiList vs := by
  unfold hhiList
  have hS : 0 < vs.sum := List.sum_pos vs h hne
  apply List.sum_pos
  · intro x hx
    obtain ⟨v, hv, rfl⟩ := List.mem_map.mp hx
    exact pow_pos (div_pos (h v hv) hS) 2
  · simpa using hne

/-- The HHI of positive values is at most one. -/
theorem hhiList_le_one (vs : List ℚ) (h : ∀ v ∈ vs, 0 < v) :
    hhiList vs ≤ 1 := by
  cases hvs : vs with
  | nil => simp [hhiList]
  | cons v t =>
    rw [← hvs, hhiList_eq_div]
    have hS : 0 < vs.sum := List.sum_pos vs h (by rw [hvs]; simp)
    exact (div_le_one (by positivity)).mpr
      (sum_sq_le_sq_sum vs (fun x hx => le_of_lt (h x hx)))

/-- With at least two suppliers the HHI is strictly below one. -/
theorem hhiList_lt_one (vs : List ℚ) (h : ∀ v ∈ vs, 0 < v)
    (hl : 2 ≤ vs.length) : hhiList vs < 1 := by
  rw [hhiList_eq_div]
  have hne : vs ≠ [] := by intro hc; rw [hc] at hl; simp at hl
  have hS : 0 < vs.sum := List.sum_pos vs h hne
  exact (div_lt_one (by positivity)).mpr (sum_sq_lt_sq_sum vs h hl)

/-- The HHI of positive values equals one exactly for a single
supplier. -/
theorem hhiList_eq_one_iff (vs : List ℚ) (h : ∀ v ∈ vs, 0 < v)
    (hne : vs ≠ []) : hhiList vs = 1 ↔ vs.length = 1 := by
  constructor
  · intro h1
    by_contra hlen
    have h0 : vs.length ≠ 0 := by simpa using hne
    have h2 : 2 ≤ vs.length := by omega
    have := hhiList_lt_one vs h h2
    rw [h1] at this
    exact lt_irrefl 1 this
  · intro hlen
    obtain ⟨a, rfl⟩ := List.length_eq_one.mp hlen
    have ha : a ≠ 0 := ne_of_gt (h a (by simp))
    simp [hhiList, div_self ha]

/-- The HHI of `n` equal positive values is exactly `1 / n`. -/
theorem hhiList_const (vs : List ℚ) (c : ℚ) (h : ∀ v ∈ vs, v = c)
    (hc : 0 < c) (hne : vs ≠ []) :
    hhiList vs = 1 / (vs.length : ℚ) := by
  have hrep : vs = List.replicate vs.length c := List.eq_replicate_length.mpr h
  have hn : 0 < vs.length := List.length_pos.mpr hne
  have hnq : ((vs.length : ℚ)) ≠ 0 := by
    exact_mod_cast Nat.pos_iff_ne_zero.mp hn
  rw [hhiList_eq_div]
  conv_lhs => rw [hrep]
  rw [List.map_replicate, List.sum_replicate, List.sum_replicate]
  rw [nsmul_eq_mul, nsmul_eq_mul]
  field_simp
  ring

/-- The pipeline HHI is the list HHI of the per-supplier aggregated
values. -/
theorem hhiOf_eq_hhiList (rs : List Registro) (e : Int) :
    hhiOf rs e = hhiList ((provsOf rs e).map (vI rs e)) := by
  unfold hhiOf hhiList vTot
  rw [List.map_map]
  rfl

/-- Claim C2: for an entity with positive total value and positive
per-supplier values, the HHI lies in `(0, 1]`; it equals `1` exactly
when the entity has a single supplier group; and with all supplier
values equal it is exactly `1 / N` for `N` suppliers. -/
theorem claim_C2_hhi_bounds :
    ∀ (rs : List Registro) (e : Int),
      (∀ p ∈ provsOf rs e, 0 < vI rs e p) →
      0 < vTot rs e →
      (0 < hhiOf rs e ∧ hhiOf rs e ≤ 1)
      ∧ (hhiOf rs e = 1 ↔ (provsOf rs e).length = 1)
      ∧ (∀ c : ℚ, (∀ p ∈ provsOf rs e, vI rs e p = c) →
          hhiOf rs e = 1 / ((provsOf rs e).length : ℚ)) := by
  intro rs e hpos hV
  have heq : hhiOf rs e = hhiList ((provsOf rs e).map (vI rs e)) :=
    hhiOf_eq_hhiList rs e
  have hposv : ∀ v ∈ (provsOf rs e).map (vI rs e), 0 < v := by
    intro v hv
    obtain ⟨p, hp, rfl⟩ := List.mem_map.mp hv
    exact hpos p hp
  have hsum : ((provsOf rs e).map (vI rs e)).sum = vTot rs e := rfl
  have hne : (provsOf rs e).map (vI rs e) ≠ [] := by
    intro hnil
    rw [hnil] at hsum
    simp at hsum
    rw [← hsum] at hV
    exact lt_irrefl 0 hV
  have hlen : ((provsOf rs e).map (vI rs e)).length = (provsOf rs e).length :=
    List.length_map _ _
  refine ⟨⟨?_, ?_⟩, ?_, ?_⟩
  · rw [heq]; exact hhiList_pos _ hposv hne
  · rw [heq]; exact hhiList_le_one _ hposv
  · rw [heq, ← hlen]
    exact hhiList_eq_one_iff _ hposv hne
  · intro c hc
    have hcv : ∀ v ∈ (provsOf rs e).map (vI rs e), v = c := by
      intro v hv
      obtain ⟨p, hp, rfl⟩ := List.mem_map.mp hv
      exact hc p hp
    have hcpos : 0 < c := by
      obtain ⟨v, hv⟩ := List.exists_mem_of_ne_nil _ hne
      rw [← hcv v hv]
      exact hposv v hv
    rw [heq, ← hlen]
    exact hhiList_const _ c hcv hcpos hne

/-- Witness for claim C2 at the worked example (`HHI = 0.52`): the
bounds hold for its entity. -/
theorem claim_C2_hhi_bounds_witness :
    0 < hhiOf (dfMainT regsEjemplo) 900123456
    ∧ hhiOf (dfMainT regsEjemplo) 900123456 ≤ 1 :=
  (claim_C2_hhi_bounds (dfMainT regsEjemplo) 900123456 (by decide) (by decide)).1

/-! ### Idempotence of the normalizers (claim C7) -/

/-- A character that the normalization alphabet leaves alone: it is
already lowercase (for the modelled table) and NFD-stable. -/
def goodChar (c : Char) : Prop :=
  lowerChar c = c ∧ nfdStrip c = [c]

instance (c : Char) : Decidable (goodChar c) := by
  unfold goodChar; infer_instance

/-- After lowering, NFD decomposition with marks dropped yields only
stable characters. -/
theorem goodChar_of_lower_nfd (c : Char) :
    ∀ d ∈ nfdStrip (lowerChar c), goodChar d := by
  intro d hd
  unfold lowerChar at hd
  cases hfl : lowerPairs.find? (fun p => p.1 = c) with
  | some p =>
    rw [hfl] at hd
    simp only [Option.map_some', Option.getD_some] at hd
    have hp := List.mem_of_find?_eq_some hfl
    have htab : ∀ p ∈ lowerPairs, ∀ d ∈ nfdStrip p.2, goodChar d := by decide
    exact htab p hp d hd
  | none =>
    rw [hfl] at hd
    simp only [Option.map_none', Option.getD_none] at hd
    have hnotkey : ∀ p ∈ lowerPairs, ¬ (decide (p.1 = c) = true) :=
      List.find?_eq_none.mp hfl
    unfold nfdStrip at hd
    cases hfn : nfdPairs.find? (fun q => q.1 = c) with
    | some q =>
      rw [hfn] at hd
      simp only [Option.map_some', Option.getD_some] at hd
      have hq := List.mem_of_find?_eq_some hfn
      have hqc : q.1 = c := by
        have hx := List.find?_some hfn
        exact of_decide_eq_true hx
      have htab : ∀ q ∈ nfdPairs,
          (∃ p ∈ lowerPairs, p.1 = q.1) ∨ ∀ d ∈ q.2, goodChar d := by decide
      rcases htab q hq with ⟨p, hp, hpq⟩ | hgood
      · exact absurd (decide_eq_true (hpq.trans hqc)) (hnotkey p hp)
      · exact hgood d hd
    | none =>
      rw [hfn] at hd
      simp only [Option.map_none', Option.getD_none, List.mem_singleton] at hd
      subst hd
      constructor
      · unfold lowerChar; rw [hfl]; rfl
      · unfold nfdStrip; rw [hfn]; rfl

/-- Stable characters are never an `ñ` or an `Ñ` (those decompose or
lowercase). -/
theorem goodChar_ne_enye {c : Char} (h : goodChar c) : c ≠ 'ñ' ∧ c ≠ 'Ñ' := by
  obtain ⟨h1, h2⟩ := h
  constructor
  · rintro rfl
    exact (by decide : ¬ nfdStrip 'ñ' = ['ñ']) h2
  · rintro rfl
    exact (by decide : ¬ lowerChar 'Ñ' = 'Ñ') h1

/-- The space character is stable. -/
theorem goodChar_space : goodChar ' ' := by decide

/-- Words produced by the split loop are nonempty. -/
theorem wordsLoop_word_ne_nil (s : List Char) :
    ∀ (acc w : List Char), w ∈ wordsLoop acc s → w ≠ [] := by
  induction s with
  | nil =>
    intro acc w hw
    unfold wordsLoop at hw
    by_cases hacc : acc.isEmpty = true
    · rw [if_pos hacc] at hw; simp at hw
    · rw [if_neg hacc] at hw
      rw [List.mem_singleton.mp hw]
      simp only [List.isEmpty_iff] at hacc
      simpa using hacc
  | cons c rest ih =>
    intro acc w hw
    unfold wordsLoop at hw
    by_cases hws : isWs c = true
    · rw [if_pos hws] at hw
      by_cases hacc : acc.isEmpty = true
      · rw [if_pos hacc] at hw; exact ih [] w hw
      · rw [if_neg hacc] at hw
        rcases List.mem_cons.mp hw with heq | hw2
        · rw [heq]
          simp only [List.isEmpty_iff] at hacc
          simpa using hacc
        · exact ih [] w hw2
    · rw [if_neg hws] at hw
      exact ih (c :: acc) w hw

/-- Characters of the split words come from the accumulator or the
input. -/
theorem wordsLoop_word_chars (s : List Char) :
    ∀ (acc w : List Char) (c : Char),
      w ∈ wordsLoop acc s → c ∈ w → c ∈ acc ∨ c ∈ s := by
  induction s with
  | nil =>
    intro acc w c hw hc
    unfold wordsLoop at hw
    by_cases hacc : acc.isEmpty = true
    · rw [if_pos hacc] at hw; simp at hw
    · rw [if_neg hacc] at hw
      rw [List.mem_singleton.mp hw] at hc
      exact Or.inl (List.mem_reverse.mp hc)
  | cons d rest ih =>
    intro acc w c hw hc
    unfold wordsLoop at hw
    by_cases hws : isWs d = true
    · rw [if_pos hws] at hw
      by_cases hacc : acc.isEmpty = true
      · rw [if_pos hacc] at hw
        rcases ih [] w c hw hc with h | h
        · simp at h
        · exact Or.inr (List.mem_cons_of_mem d h)
      · rw [if_neg hacc] at hw
        rcases List.mem_cons.mp hw with heq | hw2
        · rw [heq] at hc
          exact Or.inl (List.mem_reverse.mp hc)
        · rcases ih [] w c hw2 hc with h | h
          · simp at h
          · exact Or.inr (List.mem_cons_of_mem d h)
    · rw [if_neg hws] at hw
      rcases ih (d :: acc) w c hw hc with h | h
      · rcases List.mem_cons.mp h with heq | h2
        · exact Or.inr (heq ▸ List.mem_cons_self d rest)
        · exact Or.inl h2
      · exact Or.inr (List.mem_cons_of_mem d h)

/-- Split words contain no whitespace. -/
theorem wordsLoop_word_no_ws (s : List Char) :
    ∀ (acc : List Char), (∀ a ∈ acc, isWs a = false) →
      ∀ w ∈ wordsLoop acc s, ∀ c ∈ w, isWs c = false := by
  induction s with
  | nil =>
    intro acc hacc w hw c hc
    unfold wordsLoop at hw
    by_cases he : acc.isEmpty = true
    · rw [if_pos he] at hw; simp at hw
    · rw [if_neg he] at hw
      rw [List.mem_singleton.mp hw] at hc
      exact hacc c (List.mem_reverse.mp hc)
  | cons d rest ih =>
    intro acc hacc w hw c hc
    unfold wordsLoop at hw
    by_cases hws : isWs d = true
    · rw [if_pos hws] at hw
      by_cases he : acc.isEmpty = true
      · rw [if_pos he] at hw
        exact ih [] (by simp) w hw c hc
      · rw [if_neg he] at hw
        rcases List.mem_cons.mp hw with heq | hw2
        · rw [heq] at hc
          exact hacc c (List.mem_reverse.mp hc)
        · exact ih [] (by simp) w hw2 c hc
    · rw [if_neg hws] at hw
      refine ih (d :: acc) ?_ w hw c hc
      intro a ha
      rcases List.mem_cons.mp ha with heq | h2
      · rw [heq]; exact Bool.not_eq_true _ ▸ (by simpa using hws)
      · exact hacc a h2

/-- Unfolding equation of the split loop on the empty input. -/
theorem wordsLoop_nil (acc : List Char) :
    wordsLoop acc [] = if acc.isEmpty then [] else [acc.reverse] := rfl

/-- Unfolding equation of the split loop on a cons. -/
theorem wordsLoop_cons (acc : List Char) (c : Char) (rest : List Char) :
    wordsLoop acc (c :: rest) =
      if isWs c then
        if acc.isEmpty then wordsLoop [] rest else acc.reverse :: wordsLoop [] rest
      else wordsLoop (c :: acc) rest := rfl

/-- Feeding a whitespace-free word into the loop just accumulates it. -/
theorem wordsLoop_append_word :
    ∀ (w : List Char), (∀ c ∈ w, isWs c = false) →
      ∀ (acc t : List Char), wordsLoop acc (w ++ t) = wordsLoop (w.reverse ++ acc) t := by
  intro w
  induction w with
  | nil => intro _ acc t; simp
  | cons c w ih =>
    intro h acc t
    have hc : isWs c = false := h c (by simp)
    have hw : ∀ x ∈ w, isWs x = false := fun x hx => h x (by simp [hx])
    rw [List.cons_append, wordsLoop_cons, if_neg (by simp [hc]), ih hw (c :: acc) t]
    congr 1
    simp

/-- The split loop inverts the space join on lists of nonempty
whitespace-free words. -/
theorem wordsLoop_joinSpace :
    ∀ ws : List (List Char),
      (∀ w ∈ ws, w ≠ [] ∧ ∀ c ∈ w, isWs c = false) →
      wordsLoop [] (joinSpace ws) = ws := by
  intro ws
  induction ws with
  | nil => intro _; rfl
  | cons w ws ih =>
    intro h
    obtain ⟨hw, hwc⟩ := h w (by simp)
    cases ws with
    | nil =>
      show wordsLoop [] (joinSpace [w]) = [w]
      have hjw : joinSpace [w] = w ++ [] := by simp [joinSpace]
      rw [hjw, wordsLoop_append_word w hwc [] [], wordsLoop_nil]
      rw [if_neg (by simpa using hw)]
      simp
    | cons x xs =>
      show wordsLoop [] (w ++ ' ' :: joinSpace (x :: xs)) = w :: x :: xs
      rw [wordsLoop_append_word w hwc [] _, wordsLoop_cons]
      rw [if_pos (by decide), if_neg (by simpa using hw)]
      rw [List.append_nil, List.reverse_reverse]
      congr 1
      exact ih (fun v hv => h v (by simp [hv]))

/-- Re-splitting the collapsed text gives the same words. -/
theorem wordsLoop_collapseWs (s : List Char) :
    wordsLoop [] (collapseWs s) = wordsLoop [] s := by
  unfold collapseWs
  apply wordsLoop_joinSpace
  intro w hw
  exact ⟨wordsLoop_word_ne_nil s [] w hw,
    fun c hc => wordsLoop_word_no_ws s [] (by simp) w hw c hc⟩

/-- Whitespace collapse is idempotent. -/
theorem collapseWs_idem (s : List Char) :
    collapseWs (collapseWs s) = collapseWs s := by
  show joinSpace (wordsLoop [] (collapseWs s)) = collapseWs s
  rw [wordsLoop_collapseWs]
  rfl

/-- Leading whitespace does not change the split. -/
theorem wordsLoop_dropWhile (s : List Char) :
    wordsLoop [] (s.dropWhile isWs) = wordsLoop [] s := by
  induction s with
  | nil => rfl
  | cons c rest ih =>
    by_cases hws : isWs c = true
    · rw [List.dropWhile_cons_of_pos hws, ih, wordsLoop_cons, if_pos hws]
      simp
    · rw [List.dropWhile_cons_of_neg (by simp [hws])]

/-- A whitespace-only list splits to nothing beyond the accumulator. -/
theorem wordsLoop_ws_only :
    ∀ (u : List Char), (∀ c ∈ u, isWs c = true) →
      ∀ acc, wordsLoop acc u = wordsLoop acc [] := by
  intro u
  induction u with
  | nil => intro _ _; rfl
  | cons c u ih =>
    intro h acc
    have hc : isWs c = true := h c (by simp)
    have hu : ∀ x ∈ u, isWs x = true := fun x hx => h x (by simp [hx])
    rw [wordsLoop_cons, if_pos hc, wordsLoop_nil]
    by_cases he : acc.isEmpty = true
    · rw [if_pos he, if_pos he, ih hu [], wordsLoop_nil]
      simp
    · rw [if_neg he, if_neg he, ih hu [], wordsLoop_nil]
      simp

/-- A whitespace-only suffix does not change the split. -/
theorem wordsLoop_append_ws :
    ∀ (s u : List Char), (∀ c ∈ u, isWs c = true) →
      ∀ acc, wordsLoop acc (s ++ u) = wordsLoop acc s := by
  intro s
  induction s with
  | nil =>
    intro u hu acc
    show wordsLoop acc u = _
    rw [wordsLoop_ws_only u hu acc]
  | cons c rest ih =>
    intro u hu acc
    rw [List.cons_append, wordsLoop_cons, wordsLoop_cons]
    by_cases hws : isWs c = true
    · rw [if_pos hws, if_pos hws]
      by_cases he : acc.isEmpty = true
      · rw [if_pos he, if_pos he, ih u hu []]
      · rw [if_neg he, if_neg he, ih u hu []]
    · rw [if_neg hws, if_neg hws, ih u hu (c :: acc)]

/-- Stripping does not change the split. -/
theorem wordsLoop_pyStrip (s : List Char) :
    wordsLoop [] (pyStrip s) = wordsLoop [] s := by
  unfold pyStrip
  set s1 := s.dropWhile isWs with hs1
  have hdec : (s1.reverse.dropWhile isWs).reverse ++ (s1.reverse.takeWhile isWs).reverse = s1 := by
    rw [← List.reverse_append, List.takeWhile_append_dropWhile]
    exact List.reverse_reverse s1
  have htail : ∀ c ∈ (s1.reverse.takeWhile isWs).reverse, isWs c = true := by
    intro c hc
    exact List.mem_takeWhile_imp (List.mem_reverse.mp hc)
  calc wordsLoop [] ((s1.reverse.dropWhile isWs).reverse)
      = wordsLoop [] ((s1.reverse.dropWhile isWs).reverse ++ (s1.reverse.takeWhile isWs).reverse) :=
        (wordsLoop_append_ws _ _ htail []).symm
    _ = wordsLoop [] s1 := by rw [hdec]
    _ = wordsLoop [] s := wordsLoop_dropWhile s

/-- A map that fixes every member is the identity. -/
theorem map_eq_self_of_mem {α : Type} {f : α → α} :
    ∀ {l : List α}, (∀ c ∈ l, f c = c) → l.map f = l := by
  intro l
  induction l with
  | nil => intro _; rfl
  | cons c t ih =>
    intro h
    rw [List.map_cons, h c (by simp), ih (fun x hx => h x (by simp [hx]))]

/-- A flat map by singletons is the identity. -/
theorem flatMap_eq_self_of_mem {f : Char → List Char} :
    ∀ {l : List Char}, (∀ c ∈ l, f c = [c]) → l.flatMap f = l := by
  intro l
  induction l with
  | nil => intro _; rfl
  | cons c t ih =>
    intro h
    rw [List.flatMap_cons, h c (by simp), ih (fun x hx => h x (by simp [hx]))]
    rfl

/-- Characters of the space join come from the words or are the
space. -/
theorem mem_joinSpace :
    ∀ (ws : List (List Char)) (c : Char),
      c ∈ joinSpace ws → c = ' ' ∨ ∃ w ∈ ws, c ∈ w := by
  intro ws
  induction ws with
  | nil => intro c hc; cases hc
  | cons w ws ih =>
    intro c hc
    cases ws with
    | nil =>
      right
      exact ⟨w, by simp, hc⟩
    | cons x xs =>
      rcases List.mem_append.mp hc with hw | hrest
      · exact Or.inr ⟨w, by simp, hw⟩
      · rcases List.mem_cons.mp hrest with heq | htail
        · exact Or.inl heq
        · rcases ih c htail with h | ⟨v, hv, hcv⟩
          · exact Or.inl h
          · exact Or.inr ⟨v, by simp [hv], hcv⟩

/-- Characters of the collapsed text come from the input or are the
space. -/
theorem mem_collapseWs {s : List Char} {c : Char} (h : c ∈ collapseWs s) :
    c = ' ' ∨ c ∈ s := by
  rcases mem_joinSpace _ c h with heq | ⟨w, hw, hcw⟩
  · exact Or.inl heq
  · rcases wordsLoop_word_chars s [] w c hw hcw with h0 | hs
    · cases h0
    · exact Or.inr hs

/-- Characters survive stripping. -/
theorem mem_pyStrip {s : List Char} {c : Char} (h : c ∈ pyStrip s) : c ∈ s := by
  unfold pyStrip at h
  rw [List.mem_reverse] at h
  have h1 := (List.dropWhile_sublist (l := (s.dropWhile isWs).reverse) isWs).mem h
  rw [List.mem_reverse] at h1
  exact (List.dropWhile_sublist isWs).mem h1

/-- Every character of the generic-normalizer output is stable. -/
theorem normalizeTxtStr_good (s : String) :
    ∀ c ∈ (normalizeTxtStr s).toList, goodChar c := by
  intro c hc
  have hc2 : c ∈ collapseWs
      ((((pyStrip s.toList).map lowerChar).flatMap nfdStrip).filter
        (fun c => c ≠ 'ñ')) := hc
  rcases mem_collapseWs hc2 with rfl | hc3
  · exact goodChar_space
  · have hc4 := List.mem_of_mem_filter hc3
    obtain ⟨a, ha, hcin⟩ := List.mem_flatMap.mp hc4
    obtain ⟨b, _, rfl⟩ := List.mem_map.mp ha
    exact goodChar_of_lower_nfd b c hcin

/-- On stable already-collapsed text the generic-normalizer pipeline is
the identity. -/
theorem txtPipeline_id (t : List Char) (hgood : ∀ c ∈ t, goodChar c)
    (hcan : ∃ u, t = collapseWs u) :
    collapseWs ((((pyStrip t).map lowerChar).flatMap nfdStrip).filter
      (fun c => c ≠ 'ñ')) = t := by
  have hps : ∀ c ∈ pyStrip t, goodChar c := fun c hc => hgood c (mem_pyStrip hc)
  have hmap : (pyStrip t).map lowerChar = pyStrip t :=
    map_eq_self_of_mem (fun c hc => (hps c hc).1)
  have hfm : (pyStrip t).flatMap nfdStrip = pyStrip t :=
    flatMap_eq_self_of_mem (fun c hc => (hps c hc).2)
  have hfil : (pyStrip t).filter (fun c => c ≠ 'ñ') = pyStrip t :=
    List.filter_eq_self.mpr
      (fun c hc => decide_eq_true ((goodChar_ne_enye (hps c hc)).1))
  rw [hmap, hfm, hfil]
  obtain ⟨u, rfl⟩ := hcan
  show joinSpace (wordsLoop [] (pyStrip (collapseWs u))) = collapseWs u
  rw [wordsLoop_pyStrip, wordsLoop_collapseWs]
  rfl

/-- The generic normalizer core is idempotent. -/
theorem normalizeTxtStr_idem (s : String) :
    normalizeTxtStr (normalizeTxtStr s) = normalizeTxtStr s := by
  have key := txtPipeline_id ((normalizeTxtStr s).toList) (normalizeTxtStr_good s)
    ⟨((((pyStrip s.toList).map lowerChar).flatMap nfdStrip).filter (fun c => c ≠ 'ñ')), rfl⟩
  calc normalizeTxtStr (normalizeTxtStr s)
      = (collapseWs ((((pyStrip (normalizeTxtStr s).toList).map lowerChar).flatMap
          nfdStrip).filter (fun c => c ≠ 'ñ'))).asString := rfl
    _ = ((normalizeTxtStr s).toList).asString := by rw [key]
    _ = normalizeTxtStr s := rfl

/-- Every character of the municipality-normalizer output is stable. -/
theorem normalizeCiudadStr_good (s : String) :
    ∀ c ∈ (normalizeCiudadStr s).toList, goodChar c := by
  intro c hc
  have hc2 : c ∈ collapseWs
      (((((pyStrip s.toList).map lowerChar).flatMap nfdStrip).filter
        (fun c => c ≠ 'ñ')).filter (fun c => c ≠ 'Ñ')) := hc
  rcases mem_collapseWs hc2 with rfl | hc3
  · exact goodChar_space
  · have hc4 := List.mem_of_mem_filter (List.mem_of_mem_filter hc3)
    obtain ⟨a, ha, hcin⟩ := List.mem_flatMap.mp hc4
    obtain ⟨b, _, rfl⟩ := List.mem_map.mp ha
    exact goodChar_of_lower_nfd b c hcin

/-- On stable already-collapsed text the municipality-normalizer
pipeline is the identity. -/
theorem ciudadPipeline_id (t : List Char) (hgood : ∀ c ∈ t, goodChar c)
    (hcan : ∃ u, t = collapseWs u) :
    collapseWs (((((pyStrip t).map lowerChar).flatMap nfdStrip).filter
      (fun c => c ≠ 'ñ')).filter (fun c => c ≠ 'Ñ')) = t := by
  have hps : ∀ c ∈ pyStrip t, goodChar c := fun c hc => hgood c (mem_pyStrip hc)
  have hmap : (pyStrip t).map lowerChar = pyStrip t :=
    map_eq_self_of_mem (fun c hc => (hps c hc).1)
  have hfm : (pyStrip t).flatMap nfdStrip = pyStrip t :=
    flatMap_eq_self_of_mem (fun c hc => (hps c hc).2)
  have hfil : (pyStrip t).filter (fun c => c ≠ 'ñ') = pyStrip t :=
    List.filter_eq_self.mpr
      (fun c hc => decide_eq_true ((goodChar_ne_enye (hps c hc)).1))
  have hfil2 : (pyStrip t).filter (fun c => c ≠ 'Ñ') = pyStrip t :=
    List.filter_eq_self.mpr
      (fun c hc => decide_eq_true ((goodChar_ne_enye (hps c hc)).2))
  rw [hmap, hfm, hfil, hfil2]
  obtain ⟨u, rfl⟩ := hcan
  show joinSpace (wordsLoop [] (pyStrip (collapseWs u))) = collapseWs u
  rw [wordsLoop_pyStrip, wordsLoop_collapseWs]
  rfl

/-- The municipality normalizer core is idempotent. -/
theorem normalizeCiudadStr_idem (s : String) :
    normalizeCiudadStr (normalizeCiudadStr s) = normalizeCiudadStr s := by
  have key := ciudadPipeline_id ((normalizeCiudadStr s).toList)
    (normalizeCiudadStr_good s)
    ⟨(((((pyStrip s.toList).map lowerChar).flatMap nfdStrip).filter
        (fun c => c ≠ 'ñ')).filter (fun c => c ≠ 'Ñ')), rfl⟩
  calc normalizeCiudadStr (normalizeCiudadStr s)
      = (collapseWs (((((pyStrip (normalizeCiudadStr s).toList).map lowerChar).flatMap
          nfdStrip).filter (fun c => c ≠ 'ñ')).filter (fun c => c ≠ 'Ñ'))).asString := rfl
    _ = ((normalizeCiudadStr s).toList).asString := by rw [key]
    _ = normalizeCiudadStr s := rfl

/-- Every character of the department-normalizer output is stable (the
substituted `n` is itself stable). -/
theorem normalizeDepartamentoStr_good (s : String) :
    ∀ c ∈ (normalizeDepartamentoStr s).toList, goodChar c := by
  intro c hc
  have hc2 : c ∈ collapseWs
      (((((pyStrip s.toList).map lowerChar).flatMap nfdStrip).map
        (fun c => if c = 'ñ' then 'n' else c)).map
        (fun c => if c = 'Ñ' then 'n' else c)) := hc
  rcases mem_collapseWs hc2 with rfl | hc3
  · exact goodChar_space
  · obtain ⟨c2, hc4, rfl⟩ := List.mem_map.mp hc3
    obtain ⟨c3, hc5, rfl⟩ := List.mem_map.mp hc4
    obtain ⟨a, ha, hcin⟩ := List.mem_flatMap.mp hc5
    obtain ⟨b, _, rfl⟩ := List.mem_map.mp ha
    have hg := goodChar_of_lower_nfd b c3 hcin
    by_cases h3 : c3 = 'ñ'
    · rw [if_pos h3]
      by_cases h4 : ('n' : Char) = 'Ñ'
      · cases h4
      · rw [if_neg h4]; decide
    · rw [if_neg h3]
      by_cases h4 : c3 = 'Ñ'
      · rw [if_pos h4]; decide
      · rw [if_neg h4]; exact hg

/-- On stable already-collapsed text the department-normalizer pipeline
is the identity. -/
theorem departamentoPipeline_id (t : List Char) (hgood : ∀ c ∈ t, goodChar c)
    (hcan : ∃ u, t = collapseWs u) :
    collapseWs (((((pyStrip t).map lowerChar).flatMap nfdStrip).map
      (fun c => if c = 'ñ' then 'n' else c)).map
      (fun c => if c = 'Ñ' then 'n' else c)) = t := by
  have hps : ∀ c ∈ pyStrip t, goodChar c := fun c hc => hgood c (mem_pyStrip hc)
  have hmap : (pyStrip t).map lowerChar = pyStrip t :=
    map_eq_self_of_mem (fun c hc => (hps c hc).1)
  have hfm : (pyStrip t).flatMap nfdStrip = pyStrip t :=
    flatMap_eq_self_of_mem (fun c hc => (hps c hc).2)
  have hm1 : (pyStrip t).map (fun c => if c = 'ñ' then 'n' else c) = pyStrip t :=
    map_eq_self_of_mem
      (fun c hc => if_neg ((goodChar_ne_enye (hps c hc)).1))
  have hm2 : (pyStrip t).map (fun c => if c = 'Ñ' then 'n' else c) = pyStrip t :=
    map_eq_self_of_mem
      (fun c hc => if_neg ((goodChar_ne_enye (hps c hc)).2))
  rw [hmap, hfm, hm1, hm2]
  obtain ⟨u, rfl⟩ := hcan
  show joinSpace (wordsLoop [] (pyStrip (collapseWs u))) = collapseWs u
  rw [wordsLoop_pyStrip, wordsLoop_collapseWs]
  rfl

/-- The department normalizer core is idempotent. -/
theorem normalizeDepartamentoStr_idem (s : String) :
    normalizeDepartamentoStr (normalizeDepartamentoStr s) = normalizeDepartamentoStr s := by
  have key := departamentoPipeline_id ((normalizeDepartamentoStr s).toList)
    (normalizeDepartamentoStr_good s)
    ⟨(((((pyStrip s.toList).map lowerChar).flatMap nfdStrip).map
        (fun c => if c = 'ñ' then 'n' else c)).map
        (fun c => if c = 'Ñ' then 'n' else c)), rfl⟩
  calc normalizeDepartamentoStr (normalizeDepartamentoStr s)
      = (collapseWs (((((pyStrip (normalizeDepartamentoStr s).toList).map
          lowerChar).flatMap nfdStrip).map
          (fun c => if c = 'ñ' then 'n' else c)).map
          (fun c => if c = 'Ñ' then 'n' else c))).asString := rfl
    _ = ((normalizeDepartamentoStr s).toList).asString := by rw [key]
    _ = normalizeDepartamentoStr s := rfl

/-- With enough fuel, the regex substitution outputs only kept
characters. -/
theorem subBadRunsAux_keep :
    ∀ (n : Nat) (s : List Char), s.length ≤ n →
      ∀ c ∈ subBadRunsAux n s, regexKeep c = true := by
  intro n
  induction n with
  | zero =>
    intro s hs c hc
    have hsnil : s = [] := List.length_eq_zero.mp (Nat.le_zero.mp hs)
    subst hsnil
    cases hc
  | succ n ih =>
    intro s hs c hc
    cases s with
    | nil => cases hc
    | cons d rest =>
      simp only [List.length_cons, Nat.succ_le_succ_iff] at hs
      unfold subBadRunsAux at hc
      by_cases hd : regexKeep d = true
      · rw [if_pos hd] at hc
        rcases List.mem_cons.mp hc with rfl | hc2
        · exact hd
        · exact ih rest hs c hc2
      · rw [if_neg hd] at hc
        rcases List.mem_cons.mp hc with rfl | hc2
        · decide
        · refine ih _ ?_ c hc2
          calc (rest.dropWhile (fun d => !regexKeep d)).length
              ≤ rest.length := (List.dropWhile_sublist _).length_le
            _ ≤ n := hs

/-- On kept characters the regex substitution is the identity. -/
theorem subBadRunsAux_id :
    ∀ (n : Nat) (s : List Char), (∀ c ∈ s, regexKeep c = true) →
      subBadRunsAux n s = s := by
  intro n
  induction n with
  | zero =>
    intro s _
    cases s with
    | nil => rfl
    | cons d rest => rfl
  | succ n ih =>
    intro s h
    cases s with
    | nil => rfl
    | cons d rest =>
      unfold subBadRunsAux
      rw [if_pos (h d (by simp))]
      rw [ih rest (fun c hc => h c (by simp [hc]))]

/-- Kept characters are stable for the whole alphabet: they are neither
table keys of lowering nor of decomposition. -/
theorem regexKeep_good (c : Char) (h : regexKeep c = true) : goodChar c := by
  have hlowtab : ∀ p ∈ lowerPairs, regexKeep p.1 = false := by decide
  have hnfdtab : ∀ q ∈ nfdPairs, regexKeep q.1 = false := by decide
  have hlow : ∀ p ∈ lowerPairs, ¬ (decide (p.1 = c) = true) := by
    intro p hp hdec
    have hc : p.1 = c := of_decide_eq_true hdec
    rw [← hc] at h
    rw [hlowtab p hp] at h
    cases h
  have hnfd : ∀ q ∈ nfdPairs, ¬ (decide (q.1 = c) = true) := by
    intro q hq hdec
    have hc : q.1 = c := of_decide_eq_true hdec
    rw [← hc] at h
    rw [hnfdtab q hq] at h
    cases h
  constructor
  · unfold lowerChar
    rw [List.find?_eq_none.mpr hlow]
    rfl
  · unfold nfdStrip
    rw [List.find?_eq_none.mpr hnfd]
    rfl

/-- On kept already-collapsed text the electoral-normalizer pipeline is
the identity. -/
theorem nameCore_id (u : List Char) (hkeep : ∀ c ∈ u, regexKeep c = true)
    (hcan : ∃ v, u = collapseWs v) :
    collapseWs (subBadRuns ((u.map lowerChar).flatMap nfdStrip)) = u := by
  have hmap : u.map lowerChar = u :=
    map_eq_self_of_mem (fun c hc => (regexKeep_good c (hkeep c hc)).1)
  have hfm : u.flatMap nfdStrip = u :=
    flatMap_eq_self_of_mem (fun c hc => (regexKeep_good c (hkeep c hc)).2)
  have hsub : subBadRuns u = u := subBadRunsAux_id u.length u hkeep
  rw [hmap, hfm, hsub]
  obtain ⟨v, rfl⟩ := hcan
  exact collapseWs_idem v

/-- Every character of the (pre-correction) electoral-normalizer output
is a kept character. -/
theorem nameCore_keep (s : String) :
    ∀ c ∈ collapseWs (subBadRuns ((s.toList.map lowerChar).flatMap nfdStrip)),
      regexKeep c = true := by
  intro c hc
  rcases mem_collapseWs hc with rfl | hc2
  · decide
  · exact subBadRunsAux_keep _ _ (le_refl _) c hc2

/-- The electoral normalizer is idempotent. -/
theorem normalize_name_idem (x : Option String) :
    normalize_name (some (normalize_name x)) = normalize_name x := by
  cases x with
  | none =>
    show normalize_name (some (normalize_name none)) = normalize_name none
    decide
  | some s =>
    by_cases hfix :
      collapseWs (subBadRuns ((s.toList.map lowerChar).flatMap nfdStrip))
        = "norte de san".toList
    · have hdef : normalize_name (some s) = "norte de santander" := by
        show (if collapseWs (subBadRuns ((s.toList.map lowerChar).flatMap nfdStrip))
            = "norte de san".toList then "norte de santander"
          else (collapseWs (subBadRuns ((s.toList.map lowerChar).flatMap nfdStrip))).asString)
          = "norte de santander"
        rw [if_pos hfix]
      rw [hdef]
      decide
    · have hdef : normalize_name (some s) =
          (collapseWs (subBadRuns ((s.toList.map lowerChar).flatMap nfdStrip))).asString := by
        show (if collapseWs (subBadRuns ((s.toList.map lowerChar).flatMap nfdStrip))
            = "norte de san".toList then "norte de santander"
          else (collapseWs (subBadRuns ((s.toList.map lowerChar).flatMap nfdStrip))).asString)
          = _
        rw [if_neg hfix]
      rw [hdef]
      have hred := nameCore_id
        (collapseWs (subBadRuns ((s.toList.map lowerChar).flatMap nfdStrip)))
        (nameCore_keep s)
        ⟨subBadRuns ((s.toList.map lowerChar).flatMap nfdStrip), rfl⟩
      show (if collapseWs (subBadRuns ((((collapseWs (subBadRuns
          ((s.toList.map lowerChar).flatMap nfdStrip))).asString.toList).map
          lowerChar).flatMap nfdStrip)) = "norte de san".toList
        then "norte de santander"
        else (collapseWs (subBadRuns ((((collapseWs (subBadRuns
          ((s.toList.map lowerChar).flatMap nfdStrip))).asString.toList).map
          lowerChar).flatMap nfdStrip))).asString) = _
      have htl : ((collapseWs (subBadRuns
          ((s.toList.map lowerChar).flatMap nfdStrip))).asString).toList
          = collapseWs (subBadRuns ((s.toList.map lowerChar).flatMap nfdStrip)) := rfl
      rw [htl, hred, if_neg hfix]

/-- Claim C7 fails as stated: the merge-key normalizer of
`final_database.py` is not idempotent.  On the input `ddcc` the literal
removal of `dc` (`str.replace` scans left to right, non-overlapping)
produces the new occurrence `dc`, which a second application then
removes. -/
theorem claim_C7_cex :
    ¬ (normalize_text (some (normalize_text (some "ddcc")))
        = normalize_text (some "ddcc")) := by
  decide

/-- Claim C7 amended: the generic, municipality and department
normalizers of `secop.py` and the electoral normalizer of
`outsiders.py` are idempotent (on both present and missing input); the
merge-key normalizer `normalize_text` of `final_database.py` is the one
exception. -/
theorem claim_C7_amended :
    ∀ x : Option String,
      normalize_txt (normalize_txt x) = normalize_txt x
      ∧ normalize_ciudad (normalize_ciudad x) = normalize_ciudad x
      ∧ normalize_departamento (normalize_departamento x) = normalize_departamento x
      ∧ normalize_name (some (normalize_name x)) = normalize_name x := by
  intro x
  refine ⟨?_, ?_, ?_, normalize_name_idem x⟩
  · cases x with
    | none => rfl
    | some s =>
      show some (normalizeTxtStr (normalizeTxtStr s)) = some (normalizeTxtStr s)
      rw [normalizeTxtStr_idem]
  · cases x with
    | none => rfl
    | some s =>
      show some (normalizeCiudadStr (normalizeCiudadStr s)) = some (normalizeCiudadStr s)
      rw [normalizeCiudadStr_idem]
  · cases x with
    | none => rfl
    | some s =>
      show some (normalizeDepartamentoStr (normalizeDepartamentoStr s))
        = some (normalizeDepartamentoStr s)
      rw [normalizeDepartamentoStr_idem]

/-- Lowercasing does not change whitespace status. -/
theorem isWs_lowerChar (c : Char) : isWs (lowerChar c) = isWs c := by
  unfold lowerChar
  cases hfl : lowerPairs.find? (fun p => p.1 = c) with
  | some p =>
    simp only [Option.map_some', Option.getD_some]
    have hp := List.mem_of_find?_eq_some hfl
    have hpc : p.1 = c := by
      have hx := List.find?_some hfl
      exact of_decide_eq_true hx
    have htab : ∀ p ∈ lowerPairs, isWs p.2 = false ∧ isWs p.1 = false := by decide
    rw [(htab p hp).1, ← hpc, (htab p hp).2]
  | none => rfl

/-- Stripping commutes with lowercasing. -/
theorem pyStrip_map_lower (l : List Char) :
    pyStrip (l.map lowerChar) = (pyStrip l).map lowerChar := by
  unfold pyStrip
  have hcomp : (isWs ∘ lowerChar) = isWs := funext isWs_lowerChar
  rw [List.dropWhile_map, hcomp, ← List.map_reverse, List.dropWhile_map, hcomp,
    ← List.map_reverse]

/-- A flag accepted by the per-source SECOP II truthiness test (lower
only) also passes the final truthiness test (strip then lower). -/
theorem adjTruthy2_pasaFinal {o : Option String} (h : adjTruthy2 o = true) :
    adjudicadoTruthy o = true := by
  unfold adjTruthy2 at h
  unfold adjudicadoTruthy
  have hcomm : (pyStrip (cellStr o).toList).map lowerChar
      = pyStrip ((cellStr o).toList.map lowerChar) := (pyStrip_map_lower _).symm
  rw [Bool.or_eq_true, Bool.or_eq_true, Bool.or_eq_true] at h
  rcases h with ((h1 | h1) | h1) | h1
  all_goals {
    have hx : (cellStr o).toList.map lowerChar = _ :=
      congrArg String.toList (of_decide_eq_true h1)
    rw [hcomm, hx]
    decide
  }

/-- Membership survives a conditionally applied filter. -/
theorem mem_of_mem_ite_filter {α : Type} {b : Bool} {p : α → Bool}
    {l : List α} {r : α} (h : r ∈ (if b then l.filter p else l)) : r ∈ l := by
  cases b with
  | false => simpa using h
  | true => exact List.mem_of_mem_filter (by simpa using h)

/-- Claim C8 fails as stated: a SECOP II export without an explicit
awarded-flag column goes through the status fallback of the per-source
filter, the harmonization fills the missing flag column with nulls, and
the final cross-source gate then removes every such record. -/
def regFallback : RegFuente :=
  { estado := some "Adjudicado", valor := some 100
    fecha := some "2021-05-05", adjudicado := some "Si" }

/-- The counterexample run: one record passes the per-source SECOP II
status-fallback filter, yet the final gate removes it. -/
theorem claim_C8_cex :
    (clean_and_process_secop2 false true true true [regFallback]).length = 1
    ∧ (clean_and_process_secop2 false true true true [regFallback]).filter
        pasaFiltroFinal = [] := by
  decide

/-- Claim C8 amended: the final cross-source gate removes no record that
passed a per-source filter which actually enforced the awarded
invariant — SECOP I output produced with the value column present
(every such row carries the literal flag `Si` and a positive value), and
SECOP II output produced through the awarded-flag branch with the value
column present.  Records from the SECOP II status fallback (no
awarded-flag column) are removed by the final gate instead. -/
theorem claim_C8_amended :
    ∀ (hasEstado hasFecha hasEstado2 hasFecha2 : Bool)
      (rsA rsB : List RegFuente),
      (∀ r ∈ clean_and_process_secop1 hasEstado true hasFecha rsA,
        pasaFiltroFinal r = true)
      ∧ (∀ r ∈ clean_and_process_secop2 true hasEstado2 true hasFecha2 rsB,
        pasaFiltroFinal r = true) := by
  intro hasEstado hasFecha hasEstado2 hasFecha2 rsA rsB
  constructor
  · intro r hr
    unfold clean_and_process_secop1 at hr
    obtain ⟨r4, hr4, rfl⟩ := List.mem_map.mp hr
    obtain ⟨r3, hr3, rfl⟩ := List.mem_map.mp hr4
    have hr2 := mem_of_mem_ite_filter (b := hasFecha) hr3
    simp only [List.mem_filter, if_true] at hr2
    have hval := hr2.2
    show ((match r3.valor with
        | some v => decide (0 < v)
        | none => false) && adjudicadoTruthy (some "Si")) = true
    rw [hval]
    decide
  · intro r hr
    unfold clean_and_process_secop2 at hr
    obtain ⟨r3, hr3, rfl⟩ := List.mem_map.mp hr
    have hr2 := mem_of_mem_ite_filter (b := hasFecha2) hr3
    simp only [List.mem_filter, if_true] at hr2
    obtain ⟨⟨_, hadj⟩, hval⟩ := hr2
    show ((match r3.valor with
        | some v => decide (0 < v)
        | none => false) && adjudicadoTruthy r3.adjudicado) = true
    rw [hval, adjTruthy2_pasaFinal hadj]
    rfl

/-- A SECOP I source row for the C8 witness. -/
def regFuente1 : RegFuente :=
  { estado := some "celebrado", valor := some 50
    fecha := some "2021-01-01", adjudicado := none }

/-- Witness for the amended claim C8 at concrete rows: the surviving
records of both per-source filters pass the final gate. -/
theorem claim_C8_amended_witness :
    pasaFiltroFinal
      { estado := some "Celebrado", valor := some 50
        fecha := some "2021-01-01", adjudicado := some "Si" } = true
    ∧ pasaFiltroFinal regFallback = true :=
  ⟨(claim_C8_amended true true true true [regFuente1] [regFallback]).1
      _ (by decide),
   (claim_C8_amended true true true true [regFuente1] [regFallback]).2
      _ (by decide)⟩
